import Mathlib

/-!
RemoteChannel: a framed, non-blocking message channel.

Shallow embedding of `examples/io/remote-channel.cc`.

* Member functions of `RemoteChannel` become functions on the structure `RemoteChannel`.
* The operating system (`::read`, `::write`, `::close`), the `EventControl` and the
  `MessageHandler` are the environment: the outcome of every system call is an argument of
  the operation that makes it, and what the channel does to the environment is recorded in
  trace fields of the state (`sent`, `osCloses`, `evControl_`, `handled`).
* `assert` follows C: with `NDEBUG` it expands to nothing, without it a false condition
  aborts the process (`Fault.assertion line`).
* `size_t`/`uint8_t` values are `Nat`; the 32-bit cookie arithmetic is reduced `% 2^32`, and
  the one `size_t` difference that can fall below 0, in `Buffer.writeAvail`, wraps modulo
  `2^64`.
-/

namespace clap

/-- One octet of buffer memory. -/
abbrev Byte := Nat

/-! ## Buffer -/

/-- Modelled from the spec: the buffer class behind `inputBuffer_` and `outputBuffers_`,
declared in a header that is not part of the sources at hand (spec, sections 3 and 4.1:
"a contiguous byte store", a read cursor and a write cursor, fixed capacity).
`store` is the whole array, so its length is the capacity. -/
structure Buffer where
  store : List Byte
  readCursor : Nat
  writeCursor : Nat
deriving DecidableEq

namespace Buffer

/-- Modelled from the spec: a newly constructed buffer of the given capacity, both cursors
at offset 0. The array content is not initialised by the program; it is zero here. -/
def fresh (capacity : Nat) : Buffer :=
  { store := List.replicate capacity 0, readCursor := 0, writeCursor := 0 }

/-- Modelled from the spec: the fixed capacity of the byte store. -/
def capacity (b : Buffer) : Nat := b.store.length

/-- Modelled from the spec: `readAvail = writeCursor - readCursor`. -/
def readAvail (b : Buffer) : Nat := b.writeCursor - b.readCursor

/-- Modelled from the spec: `writeAvail = capacity - writeCursor`, a `size_t`. Under the
cursor invariant this is the spare capacity. For a write cursor beyond the capacity the
difference is negative and the unsigned result wraps modulo `2^64`, so it is not 0. -/
def writeAvail (b : Buffer) : Nat :=
  if b.writeCursor ≤ b.capacity then b.capacity - b.writeCursor
  else (2 ^ 64 - (b.writeCursor - b.capacity) % 2 ^ 64) % 2 ^ 64

/-- Modelled from the spec: `readData()` "exposes unread bytes"; the `readAvail` bytes that
start at the read cursor. -/
def readData (b : Buffer) : List Byte := (b.store.drop b.readCursor).take b.readAvail

/-- Modelled from the spec: what a caller does with the region `writeData()` exposes, namely
copy `bytes` into the array starting at the write cursor. The cursors do not move. -/
def poke (b : Buffer) (bytes : List Byte) : Buffer :=
  { b with store := b.store.take b.writeCursor ++ bytes
                      ++ b.store.drop (b.writeCursor + bytes.length) }

/-- Modelled from the spec: `wrote(n)` "advances the write cursor by `n`". -/
def wrote (b : Buffer) (n : Nat) : Buffer := { b with writeCursor := b.writeCursor + n }

/-- Modelled from the spec: `consumed(n)` "advances the read cursor after a parser consumes
`n` bytes". -/
def consumed (b : Buffer) (n : Nat) : Buffer := { b with readCursor := b.readCursor + n }

/-- Modelled from the spec: `rewind()` "compacts unread bytes to the start, resetting both
cursors relative to offset 0"; the bytes behind the moved block keep their old content. -/
def rewind (b : Buffer) : Buffer :=
  { store := b.readData ++ b.store.drop b.readData.length
    readCursor := 0
    writeCursor := b.readAvail }

/-- Modelled from the spec: `write(data, size)` on a buffer "appends as many bytes as fit
(`min(size, writeAvail)`), returns count written". -/
def write (b : Buffer) (data : List Byte) (size : Nat) : Buffer × Nat :=
  let count := min size b.writeAvail
  ((b.poke (data.take count)).wrote count, count)

/-- Cursor invariant of the spec: `readCursor <= writeCursor <= capacity`. -/
def WF (b : Buffer) : Prop := b.readCursor ≤ b.writeCursor ∧ b.writeCursor ≤ b.capacity

instance (b : Buffer) : Decidable b.WF := by unfold WF; infer_instance

end Buffer

/-! ## Messages and the wire format -/

/-- The `Message` of the header: `type`, `cookie` and `size` are `uint32_t`, `data` is the
memory `data` points to. -/
structure Message where
  type : Nat
  cookie : Nat
  size : Nat
  data : List Byte
deriving DecidableEq

/-- The four bytes of a `uint32_t` object in host order (little-endian, as in the spec's
scenario); this is what `write(&msg.type, sizeof(msg.type))` reads. -/
def u32Bytes (v : Nat) : List Byte :=
  [v % 256, v / 256 % 256, v / 65536 % 256, v / 16777216 % 256]

/-- The `uint32_t` stored in the four bytes at offset `off` of `bytes` (host order). -/
def u32At (bytes : List Byte) (off : Nat) : Nat :=
  bytes.getD off 0 + 256 * bytes.getD (off + 1) 0 + 65536 * bytes.getD (off + 2) 0
    + 16777216 * bytes.getD (off + 3) 0

/-- The frame of a message on the wire: `type || cookie || size || payload[size]`. -/
def frame (msg : Message) : List Byte :=
  u32Bytes msg.type ++ u32Bytes msg.cookie ++ u32Bytes msg.size ++ msg.data.take msg.size

/-- A message whose header fields are 32-bit values and whose `data` addresses exactly
`size` bytes. -/
def Message.WF (msg : Message) : Prop :=
  msg.type < 2 ^ 32 ∧ msg.cookie < 2 ^ 32 ∧ msg.size < 2 ^ 32 ∧ msg.data.length = msg.size

instance (msg : Message) : Decidable msg.WF := by unfold Message.WF; infer_instance

/-! ## Environment -/

/-- Value of `errno` after an interrupted call (Linux numbering, as the others). -/
def EINTR : Nat := 4

/-- Value of `errno` for an invalid descriptor. -/
def EBADF : Nat := 9

/-- Value of `errno` when the call would block. -/
def EAGAIN : Nat := 11

/-- Value of `errno` when the call would block; the same number as `EAGAIN`. -/
def EWOULDBLOCK : Nat := 11

/-- Value of `errno` for a write to a connection the peer has closed; a fatal failure. -/
def EPIPE : Nat := 32

/-- Value of `errno` for a connection the peer has reset; a fatal failure. -/
def ECONNRESET : Nat := 104

/-- Modelled from the spec: the Read flag of `EventControl.modifyFd`, whose argument is "a
set drawn from {Read, Write}"; the set is a bit mask. -/
def CLAP_FD_READ : Nat := 1

/-- Modelled from the spec: the Write flag of `EventControl.modifyFd`. -/
def CLAP_FD_WRITE : Nat := 2

/-- What the peer and the kernel make of one `::read` on an open descriptor: a failure with
an `errno`, or the bytes that are ready. -/
inductive ReadOutcome where
  | error (errno : Nat)
  | data (bytes : List Byte)
deriving DecidableEq

/-- What the kernel makes of one `::write` on an open descriptor: a failure with an `errno`,
or a number of bytes it is willing to accept. -/
inductive WriteOutcome where
  | error (errno : Nat)
  | accept (n : Nat)
deriving DecidableEq

/-- `::read(fd, buf, avail)`: `-1` with `errno = EBADF` on an invalid descriptor; otherwise
the failure the environment chose, or at most `avail` of the ready bytes. -/
def sysRead (fd : Int) (avail : Nat) (o : ReadOutcome) : Except Nat (List Byte) :=
  if fd < 0 then .error EBADF
  else match o with
    | .error errno => .error errno
    | .data bytes => .ok (bytes.take avail)

/-- `::write(fd, buf, avail)`: `-1` with `errno = EBADF` on an invalid descriptor; otherwise
the failure the environment chose, or the number of bytes accepted, at most `avail`. -/
def sysWrite (fd : Int) (avail : Nat) (o : WriteOutcome) : Except Nat Nat :=
  if fd < 0 then .error EBADF
  else match o with
    | .error errno => .error errno
    | .accept n => .ok (min n avail)

/-- How a call can fail to return. -/
inductive Fault where
  /-- An `assert` at this source line was false and `NDEBUG` is not defined. -/
  | assertion (line : Nat)
  /-- The loop at this source line never exits. -/
  | diverges (line : Nat)
  /-- The environment script holds no outcome for a system call the code makes. -/
  | unscripted
deriving DecidableEq

/-- Equality of results is decidable when equality of values and of faults is. -/
instance decEqExcept {ε α : Type} [DecidableEq ε] [DecidableEq α] : DecidableEq (Except ε α)
  | .ok a, .ok b =>
    if h : a = b then isTrue (by rw [h]) else isFalse (by intro e; cases e; exact h rfl)
  | .error a, .error b =>
    if h : a = b then isTrue (by rw [h]) else isFalse (by intro e; cases e; exact h rfl)
  | .ok _, .error _ => isFalse (by intro e; cases e)
  | .error _, .ok _ => isFalse (by intro e; cases e)

/-- The C `assert` macro. -/
def cAssert (ndebug : Bool) (line : Nat) (cond : Bool) : Except Fault Unit :=
  if ndebug || cond then .ok () else .error (.assertion line)

/-! ## The channel -/

/-- The state of a `RemoteChannel` together with the build configuration and the trace of
what it did to its environment. -/
structure RemoteChannel where
  /-- Build configuration: `NDEBUG` is defined, `assert` expands to nothing. -/
  ndebug : Bool
  /-- Build configuration: the capacity of one buffer of `outputBuffers_`. -/
  writeCapacity : Nat
  cookieHalf_ : Bool
  socket_ : Int
  nextCookie_ : Nat
  inputBuffer_ : Buffer
  outputBuffers_ : List Buffer
  /-- Trace: the flags of every `evControl_.modifyFd` call, oldest first. -/
  evControl_ : List Nat
  /-- Trace: every message `handler_` was invoked with, oldest first. -/
  handled : List Message
  /-- Trace: every byte `::write` accepted, oldest first. -/
  sent : List Byte
  /-- Trace: the descriptor of every `::close` call, oldest first. -/
  osCloses : List Int
deriving DecidableEq

/-- What a `MessageHandler` does: it is invoked with a message and may call back into the
channel. -/
abbrev MessageHandler := Message → RemoteChannel → RemoteChannel

namespace RemoteChannel

/-- The constructor (lines 10-14): the half flag and the socket come from the arguments; the
counter starts at 0, the input buffer and the output queue start empty. -/
def new (ndebug : Bool) (readCapacity writeCapacity : Nat) (socket : Int) (cookieHalf : Bool) :
    RemoteChannel :=
  { ndebug := ndebug, writeCapacity := writeCapacity, cookieHalf_ := cookieHalf,
    socket_ := socket, nextCookie_ := 0, inputBuffer_ := Buffer.fresh readCapacity,
    outputBuffers_ := [], evControl_ := [], handled := [], sent := [], osCloses := [] }

/-- `evControl_.modifyFd(flags)`. -/
def modifyFd (ch : RemoteChannel) (flags : Nat) : RemoteChannel :=
  { ch with evControl_ := ch.evControl_ ++ [flags] }

/-- `RemoteChannel::close` (lines 85-91). -/
def close (ch : RemoteChannel) : RemoteChannel :=
  if ch.socket_ = -1 then ch
  else { ch with osCloses := ch.osCloses ++ [ch.socket_], socket_ := -1 }

/-- `RemoteChannel::computeNextCookie` (lines 93-102): the returned cookie and the state
afterwards. `1ULL << 31` is a 64-bit value, so `~` is complement in 64 bits; the result is
converted back to `uint32_t`. -/
def computeNextCookie (ch : RemoteChannel) : Nat × RemoteChannel :=
  let cookie := ch.nextCookie_
  let cookie :=
    if ch.cookieHalf_ then (cookie ||| (1 <<< 31)) % 2 ^ 32
    else (cookie &&& ((2 ^ 64 - 1) ^^^ (1 <<< 31))) % 2 ^ 32
  (cookie, { ch with nextCookie_ := (ch.nextCookie_ + 1) % 2 ^ 32 })

/-! ### Read path -/

/-- Modelled from the spec: the loop of `parseInput`, a member function whose definition is
not part of the sources at hand (spec, section 4.3): "while the unread region holds at
least a full header (12 bytes: type+cookie+size) and at least `size` additional payload
bytes, decode one Message, advance the read cursor past it, and invoke the handler
synchronously with the decoded Message. Stop when an incomplete header or incomplete payload
remains". The first argument bounds the number of iterations. -/
def parseLoop (handler : MessageHandler) : Nat → RemoteChannel → RemoteChannel
  | 0, ch => ch
  | fuel + 1, ch =>
    let unread := ch.inputBuffer_.readData
    if ch.inputBuffer_.readAvail < 12 then ch
    else
      let size := u32At unread 8
      if ch.inputBuffer_.readAvail < 12 + size then ch
      else
        let msg : Message :=
          { type := u32At unread 0, cookie := u32At unread 4, size := size,
            data := (unread.drop 12).take size }
        let ch := { ch with inputBuffer_ := ch.inputBuffer_.consumed (12 + size) }
        let ch := handler msg { ch with handled := ch.handled ++ [msg] }
        parseLoop handler fuel ch

/-- Modelled from the spec: `parseInput()`. Every iteration of the loop takes at least 12
unread bytes, so `readAvail` iterations are never used up while the handler leaves the input
buffer alone. -/
def parseInput (handler : MessageHandler) (ch : RemoteChannel) : RemoteChannel :=
  parseLoop handler ch.inputBuffer_.readAvail ch

/-- `RemoteChannel::onRead` (lines 18-31); `o` is the outcome of the `::read` call. -/
def onRead (handler : MessageHandler) (ch : RemoteChannel) (o : ReadOutcome) : RemoteChannel :=
  match sysRead ch.socket_ ch.inputBuffer_.writeAvail o with
  | .error errno =>
    if errno = EWOULDBLOCK ∨ errno = EAGAIN ∨ errno = EINTR then ch
    else ch.close
  | .ok bytes =>
    let ch := { ch with inputBuffer_ := (ch.inputBuffer_.poke bytes).wrote bytes.length }
    let ch := parseInput handler ch
    { ch with inputBuffer_ := ch.inputBuffer_.rewind }

/-! ### Write path -/

/-- `outputBuffers_.emplace()`: a new buffer at the back of the queue. -/
def emplace (ch : RemoteChannel) : RemoteChannel :=
  { ch with outputBuffers_ := ch.outputBuffers_ ++ [Buffer.fresh ch.writeCapacity] }

/-- `RemoteChannel::nextWriteBuffer` (lines 43-55). The reference it returns is the back of
the queue of the resulting state. -/
def nextWriteBuffer (ch : RemoteChannel) : RemoteChannel :=
  match ch.outputBuffers_.getLast? with
  | none => ch.emplace
  | some buffer => if buffer.writeAvail > 0 then ch else ch.emplace

/-- `outputBuffers_.back()`. -/
def back (ch : RemoteChannel) : Buffer := ch.outputBuffers_.getLastD (Buffer.fresh 0)

/-- Assignment through the reference `outputBuffers_.back()`. -/
def setBack (ch : RemoteChannel) (buffer : Buffer) : RemoteChannel :=
  { ch with outputBuffers_ := ch.outputBuffers_.dropLast ++ [buffer] }

/-- The loop of `RemoteChannel::write` (lines 35-38), at most `fuel` iterations. The call
`buffer.write(data, size)` is made on the local lvalues `data` and `size`, which the loop
condition and the assertion after the loop read again: the count the buffer took is taken
off both. Returns the state and the final value of `size`. -/
def writeLoop : Nat → RemoteChannel → List Byte → Nat → Except Fault (RemoteChannel × Nat)
  | 0, ch, _, size => if size > 0 then .error (.diverges 35) else .ok (ch, size)
  | fuel + 1, ch, data, size =>
    if size > 0 then
      let ch := ch.nextWriteBuffer
      let (buffer, count) := ch.back.write data size
      writeLoop fuel (ch.setBack buffer) (data.drop count) (size - count)
    else .ok (ch, size)

/-- `RemoteChannel::write` (lines 33-41). An iteration that makes progress takes at least
one byte off `size`, so `size` iterations suffice unless the loop never exits. -/
def write (ch : RemoteChannel) (data : List Byte) (size : Nat) : Except Fault RemoteChannel :=
  match writeLoop size ch data size with
  | .error f => .error f
  | .ok (ch, size) =>
    match cAssert ch.ndebug 40 (size == 0) with
    | .error f => .error f
    | .ok _ => .ok ch

/-- `outputBuffers_.front()`. -/
def front (ch : RemoteChannel) : Buffer := ch.outputBuffers_.headD (Buffer.fresh 0)

/-- Assignment through the reference `outputBuffers_.front()`. -/
def setFront (ch : RemoteChannel) (buffer : Buffer) : RemoteChannel :=
  { ch with outputBuffers_ := buffer :: ch.outputBuffers_.tail }

/-- `outputBuffers_.pop()`. -/
def pop (ch : RemoteChannel) : RemoteChannel :=
  { ch with outputBuffers_ := ch.outputBuffers_.tail }

/-- How the inner loop of `onWrite` is left. -/
inductive InnerExit where
  /-- The condition `avail > 0` became false; the rest of the script is handed on. -/
  | drained (ch : RemoteChannel) (outs : List WriteOutcome)
  /-- A `return` was executed inside the loop. -/
  | returned (ch : RemoteChannel)
deriving DecidableEq

/-- The inner loop of `RemoteChannel::onWrite` (lines 62-77) on `outputBuffers_.front()`;
the list holds the outcomes of the successive `::write` calls. The bytes a `::write` accepts
are the first `nbytes` at the pointer `buffer.readData()`. -/
def onWriteInner : List WriteOutcome → RemoteChannel → Nat → Except Fault InnerExit
  | outs, ch, 0 => .ok (.drained ch outs)
  | [], _, _ + 1 => .error .unscripted
  | o :: outs, ch, n + 1 =>
    let avail := n + 1
    match sysWrite ch.socket_ avail o with
    | .error errno =>
      if errno = EWOULDBLOCK ∨ errno = EAGAIN ∨ errno = EINTR then
        .ok (.returned (ch.modifyFd (CLAP_FD_READ ||| CLAP_FD_WRITE)))
      else .ok (.returned ch.close)
    | .ok nbytes =>
      let ch := { ch with sent := ch.sent ++ (ch.front.store.drop ch.front.readCursor).take nbytes }
      let ch := ch.setFront (ch.front.wrote nbytes)
      let avail := avail - nbytes
      match cAssert ch.ndebug 76 (avail == ch.front.readAvail) with
      | .error f => .error f
      | .ok _ => onWriteInner outs ch avail

/-- The outer loop of `RemoteChannel::onWrite` (lines 58-82), at most `fuel` iterations. -/
def onWriteLoop : Nat → RemoteChannel → List WriteOutcome → Except Fault RemoteChannel
  | 0, _, _ => .error (.diverges 58)
  | fuel + 1, ch, outs =>
    if ch.outputBuffers_.isEmpty then .ok (ch.modifyFd CLAP_FD_READ)
    else
      let avail := ch.front.readAvail
      match onWriteInner outs ch avail with
      | .error f => .error f
      | .ok (.returned ch) => .ok ch
      | .ok (.drained ch outs) => onWriteLoop fuel ch.pop outs

/-- `RemoteChannel::onWrite` (lines 57-83); `outs` holds the outcomes of the successive
`::write` calls. Every iteration of the outer loop that does not return pops one buffer, so
one more iteration than there are buffers is never used up. -/
def onWrite (ch : RemoteChannel) (outs : List WriteOutcome) : Except Fault RemoteChannel :=
  onWriteLoop (ch.outputBuffers_.length + 1) ch outs

/-- `RemoteChannel::sendMessageAsync` (lines 104-111); `outs` holds the outcomes of the
`::write` calls of the final `onWrite()`. -/
def sendMessageAsync (ch : RemoteChannel) (msg : Message) (outs : List WriteOutcome) :
    Except Fault (Bool × RemoteChannel) :=
  match ch.write (u32Bytes msg.type) 4 with
  | .error f => .error f
  | .ok ch =>
    match ch.write (u32Bytes msg.cookie) 4 with
    | .error f => .error f
    | .ok ch =>
      match ch.write (u32Bytes msg.size) 4 with
      | .error f => .error f
      | .ok ch =>
        match ch.write msg.data msg.size with
        | .error f => .error f
        | .ok ch =>
          match ch.onWrite outs with
          | .error f => .error f
          | .ok ch => .ok (true, ch)

/-- `RemoteChannel::sendMessageSync` (lines 113-115). -/
def sendMessageSync (ch : RemoteChannel) (_msg : Message) (_handler : MessageHandler) :
    Bool × RemoteChannel :=
  (true, ch)

/-- The unread bytes of the output queue, front to back. -/
def queued (ch : RemoteChannel) : List Byte :=
  (ch.outputBuffers_.map Buffer.readData).flatten

/-- The cookies returned by `n` successive `computeNextCookie` calls, first call first. -/
def cookies : Nat → RemoteChannel → List Nat
  | 0, _ => []
  | n + 1, ch => ch.computeNextCookie.1 :: cookies n ch.computeNextCookie.2

end RemoteChannel

/-- The half tag as a number: bit 31 for one half, nothing for the other. -/
def halfBase (half : Bool) : Nat := if half then 2 ^ 31 else 0

/-- The bytes of a sequence of frames, one after the other. -/
def frames (msgs : List Message) : List Byte := (msgs.map frame).flatten

/-- The loop condition of `parseInput` on the unread bytes: a full header and the payload it
announces are there. -/
def Complete (bytes : List Byte) : Bool :=
  decide (12 ≤ bytes.length) && decide (12 + u32At bytes 8 ≤ bytes.length)

/-- A handler that leaves the input buffer, the trace of handled messages and the socket
handle of the channel alone. -/
def Passive (handler : MessageHandler) : Prop :=
  ∀ m c, (handler m c).inputBuffer_ = c.inputBuffer_ ∧ (handler m c).handled = c.handled ∧
    (handler m c).socket_ = c.socket_

/-- The channel after a sequence of read events, each of which finds `chunk` ready. -/
def runReads (handler : MessageHandler) (ch : RemoteChannel) (chunks : List (List Byte)) :
    RemoteChannel :=
  chunks.foldl (fun c chunk => RemoteChannel.onRead handler c (.data chunk)) ch

/-- Every chunk of the sequence is something `::read` can return: it is no longer than the
space `writeAvail()` offers at that read. -/
def readsFit (handler : MessageHandler) : RemoteChannel → List (List Byte) → Bool
  | _, [] => true
  | ch, chunk :: rest =>
    decide (chunk.length ≤ ch.inputBuffer_.writeAvail)
      && readsFit handler (RemoteChannel.onRead handler ch (.data chunk)) rest

/-- The message of the spec's scenario: type 1, cookie 0, payload "hello". -/
def helloMsg : Message :=
  { type := 1, cookie := 0, size := 5, data := [0x68, 0x65, 0x6c, 0x6c, 0x6f] }

/-- An open channel on descriptor 3 as constructed, with a 64-byte input buffer and 32-byte
output buffers, in a build with or without `NDEBUG`. -/
def openChannel (ndebug : Bool) : RemoteChannel := RemoteChannel.new ndebug 64 32 3 false

/-- The channel `openChannel` after `close()`. -/
def closedChannel (ndebug : Bool) : RemoteChannel := (openChannel ndebug).close

/-- Seventeen distinct bytes to queue. -/
def bytes17 : List Byte := [1, 2, 3, 4, 5, 6, 7, 8, 9, 10, 11, 12, 13, 14, 15, 16, 17]

/-- The channel `openChannel` after `write(bytes17, 17)`: one output buffer holding the 17
bytes, write cursor at 17. -/
def queued17 (ndebug : Bool) : RemoteChannel :=
  { openChannel ndebug with
    outputBuffers_ :=
      [{ store := bytes17 ++ List.replicate 15 0, readCursor := 0, writeCursor := 17 }] }

/-- The most recent `modifyFd` request. -/
def RemoteChannel.interest (ch : RemoteChannel) : Option Nat := ch.evControl_.getLast?

/-- Every buffer of the output queue satisfies the cursor invariant. -/
def QueueWF (ch : RemoteChannel) : Prop := ∀ b ∈ ch.outputBuffers_, b.WF

/-- A handler that calls `close()` on the channel whenever it is invoked. -/
def closingHandler : MessageHandler := fun _ c => c.close

/-- Forty distinct bytes, more than one 32-byte output buffer holds. -/
def bytes40 : List Byte := List.range 40

/-- The state of `onWrite` after a `::write` has accepted `nbytes` (lines 63-74): the bytes
are on the wire and `wrote(nbytes)` has been called on the front buffer. -/
def RemoteChannel.afterAccept (ch : RemoteChannel) (nbytes : Nat) : RemoteChannel :=
  ({ ch with sent := ch.sent ++ (ch.front.store.drop ch.front.readCursor).take nbytes }).setFront
    (ch.front.wrote nbytes)

/-- A handler that leaves the input buffer and the trace of handled messages alone; it may
close the channel or queue output. -/
def InputPassive (handler : MessageHandler) : Prop :=
  ∀ m c, (handler m c).inputBuffer_ = c.inputBuffer_ ∧ (handler m c).handled = c.handled

/-- The state of `onRead` between `parseInput()` and `rewind()` (lines 28-29) when `::read`
returned `bytes`. -/
def RemoteChannel.parsed (handler : MessageHandler) (ch : RemoteChannel) (bytes : List Byte) :
    RemoteChannel :=
  RemoteChannel.parseInput handler
    { ch with inputBuffer_ := (ch.inputBuffer_.poke bytes).wrote bytes.length }

/-- A sequence of `write(data, size)` calls, first call first. -/
def runWrites : RemoteChannel → List (List Byte × Nat) → Except Fault RemoteChannel
  | ch, [] => .ok ch
  | ch, (data, size) :: rest =>
    match ch.write data size with
    | .error f => .error f
    | .ok c => runWrites c rest

/-- The number of bytes written into the buffers of a queue so far. -/
def writtenBytes (q : List Buffer) : Nat := (q.map Buffer.writeCursor).sum

/-- A queue as `write` builds it from an empty one: buffers of capacity `C` that have never
been read from, none of them empty, all but the last one full. -/
def Packed (C : Nat) (q : List Buffer) : Prop :=
  (∀ b ∈ q, b.capacity = C ∧ b.readCursor = 0 ∧ 0 < b.writeCursor ∧ b.writeCursor ≤ C) ∧
  (∀ b ∈ q.dropLast, b.writeCursor = C)

/-- A call that puts bytes into the output queue or takes bytes out of it, with the outcomes
of the `::write` calls it makes. -/
inductive Call where
  | write (data : List Byte) (size : Nat)
  | sendMessageAsync (msg : Message) (outs : List WriteOutcome)
  | onWrite (outs : List WriteOutcome)

/-- A sequence of `write`, `sendMessageAsync` and `onWrite` calls, first call first. -/
def runCalls : RemoteChannel → List Call → Except Fault RemoteChannel
  | ch, [] => .ok ch
  | ch, .write data size :: rest =>
    match ch.write data size with
    | .error f => .error f
    | .ok c => runCalls c rest
  | ch, .sendMessageAsync msg outs :: rest =>
    match ch.sendMessageAsync msg outs with
    | .error f => .error f
    | .ok r => runCalls r.2 rest
  | ch, .onWrite outs :: rest =>
    match ch.onWrite outs with
    | .error f => .error f
    | .ok c => runCalls c rest

/-- The invariant of the output queue: every buffer other than the tail has no spare write
capacity. -/
def Sealed (q : List Buffer) : Prop := ∀ b ∈ q.dropLast, b.writeAvail = 0

/-- A handler that answers every message by sending it back, the socket accepting the whole
frame, and then calls `close()` on the channel. -/
def replyThenClose : MessageHandler := fun m c =>
  match c.sendMessageAsync m [.accept (12 + m.size)] with
  | .ok r => r.2.close
  | .error _ => c.close

/-! # Theorems -/

open RemoteChannel

/-! ## Buffer lemmas -/

namespace Buffer

theorem fresh_WF (c : Nat) : (fresh c).WF := by
  simp [WF, fresh, capacity]

theorem fresh_readData (c : Nat) : (fresh c).readData = [] := by
  simp [readData, fresh, readAvail]

theorem writeAvail_of_le (b : Buffer) (h : b.writeCursor ≤ b.capacity) :
    b.writeAvail = b.capacity - b.writeCursor := by
  simp [writeAvail, h]

theorem fresh_writeAvail (c : Nat) : (fresh c).writeAvail = c := by
  simp [writeAvail, fresh, capacity]

theorem readData_length (b : Buffer) (h : b.WF) : b.readData.length = b.readAvail := by
  obtain ⟨h1, h2⟩ := h
  simp only [readData, readAvail, capacity, List.length_take, List.length_drop] at *
  omega

/-- Storing `bytes` at the write cursor and advancing it appends them to the unread bytes. -/
theorem poke_wrote (b : Buffer) (bytes : List Byte) (h : b.WF)
    (hfit : bytes.length ≤ b.writeAvail) :
    ((b.poke bytes).wrote bytes.length).readData = b.readData ++ bytes ∧
    ((b.poke bytes).wrote bytes.length).WF ∧
    ((b.poke bytes).wrote bytes.length).capacity = b.capacity ∧
    ((b.poke bytes).wrote bytes.length).writeAvail = b.writeAvail - bytes.length ∧
    ((b.poke bytes).wrote bytes.length).readAvail = b.readAvail + bytes.length := by
  obtain ⟨h1, h2⟩ := h
  rw [writeAvail_of_le b h2] at hfit
  rw [writeAvail_of_le b h2]
  simp only [capacity] at hfit h2
  have hlen : (b.poke bytes).store.length = b.store.length := by
    simp only [poke, List.length_append, List.length_take, List.length_drop]
    omega
  refine ⟨?_, ?_, ?_, ?_, ?_⟩
  · simp only [readData, readAvail, poke, wrote]
    rw [List.append_assoc, List.drop_append_of_le_length (by simp; omega)]
    rw [show b.writeCursor + bytes.length - b.readCursor
          = ((b.store.take b.writeCursor).drop b.readCursor).length + bytes.length by
        simp; omega]
    rw [← List.append_assoc, List.take_append_of_le_length (by simp)]
    rw [List.take_of_length_le (by simp)]
    congr 1
    rw [List.drop_take]
  · simp only [WF, wrote, capacity, hlen]
    simp only [poke]
    omega
  · simp only [capacity, wrote, hlen]
  · have hle : ((b.poke bytes).wrote bytes.length).writeCursor
        ≤ ((b.poke bytes).wrote bytes.length).capacity := by
      simp only [capacity, wrote, hlen]
      simp only [poke]
      omega
    rw [writeAvail_of_le _ hle]
    simp only [capacity, wrote, hlen]
    simp only [poke]
    omega
  · simp only [readAvail, wrote, poke]; omega

theorem consumed_readData (b : Buffer) (n : Nat) (h : b.WF) (hn : n ≤ b.readAvail) :
    (b.consumed n).readData = b.readData.drop n ∧ (b.consumed n).WF ∧
    (b.consumed n).readAvail = b.readAvail - n := by
  obtain ⟨h1, h2⟩ := h
  simp only [readAvail] at hn
  refine ⟨?_, ?_, ?_⟩
  · simp only [readData, readAvail, consumed]
    rw [List.drop_take, List.drop_drop]
    congr 1
    omega
  · simp only [WF, consumed, capacity] at *; omega
  · simp only [readAvail, consumed]; omega

theorem rewind_readData (b : Buffer) (h : b.WF) :
    b.rewind.readData = b.readData ∧ b.rewind.WF ∧ b.rewind.capacity = b.capacity ∧
    b.rewind.readAvail = b.readAvail ∧ b.rewind.writeAvail = b.capacity - b.readAvail := by
  have hl := readData_length b h
  obtain ⟨h1, h2⟩ := h
  simp only [capacity] at h2
  have hcap : (b.readData ++ b.store.drop b.readData.length).length = b.store.length := by
    simp only [List.length_append, List.length_drop, hl, readAvail]; omega
  refine ⟨?_, ?_, ?_, ?_, ?_⟩
  · simp only [rewind, readData, readAvail, List.drop_zero, Nat.sub_zero]
    have := hl
    simp only [readData, readAvail] at this
    rw [List.take_append_of_le_length (by omega), List.take_of_length_le (by omega)]
  · simp only [WF, rewind, capacity, hcap, readAvail]; omega
  · simp only [rewind, capacity, hcap]
  · simp only [rewind, readAvail]; omega
  · have hle : b.rewind.writeCursor ≤ b.rewind.capacity := by
      simp only [rewind, capacity, hcap, readAvail]; omega
    rw [writeAvail_of_le _ hle]
    simp only [rewind, capacity, hcap]

end Buffer

/-! ## The write path: queueing -/

theorem queued_append (ch : RemoteChannel) (init : List Buffer) (b : Buffer)
    (h : ch.outputBuffers_ = init ++ [b]) :
    ch.queued = (init.map Buffer.readData).flatten ++ b.readData := by
  simp [queued, h]

/-- What `nextWriteBuffer` returns: the back of the resulting queue has spare capacity, and
the unread bytes of the queue are as before. -/
theorem nextWriteBuffer_spec (ch : RemoteChannel) (hcap : 0 < ch.writeCapacity)
    (hq : QueueWF ch) :
    ∃ init, ch.nextWriteBuffer.outputBuffers_ = init ++ [ch.nextWriteBuffer.back] ∧
      0 < ch.nextWriteBuffer.back.writeAvail ∧ ch.nextWriteBuffer.back.WF ∧
      (∀ b ∈ init, b.WF) ∧
      (init.map Buffer.readData).flatten ++ ch.nextWriteBuffer.back.readData = ch.queued ∧
      ch.nextWriteBuffer = { ch with outputBuffers_ := ch.nextWriteBuffer.outputBuffers_ } := by
  rcases List.eq_nil_or_concat ch.outputBuffers_ with hnil | ⟨init, last, hcons⟩
  on_goal 2 => rw [List.concat_eq_append] at hcons
  · refine ⟨[], ?_⟩
    simp [nextWriteBuffer, hnil, emplace, back, queued, Buffer.fresh_writeAvail,
      Buffer.fresh_WF, Buffer.fresh_readData, hcap]
  · have hlast : last.WF := hq last (by simp [hcons])
    have hinit : ∀ b ∈ init, b.WF := fun b hb => hq b (by simp [hcons, hb])
    by_cases hav : last.writeAvail > 0
    · refine ⟨init, ?_⟩
      simp [nextWriteBuffer, hcons, hav, back, queued, hlast]
      exact ⟨hinit, by rw [← hcons]⟩
    · refine ⟨init ++ [last], ?_⟩
      simp [nextWriteBuffer, hcons, hav, emplace, back, queued, Buffer.fresh_writeAvail,
        Buffer.fresh_WF, Buffer.fresh_readData, hcap]
      intro b hb
      rcases hb with hb | hb
      · exact hinit b hb
      · rw [hb]; exact hlast

theorem buffer_write_spec (b : Buffer) (data : List Byte) (size : Nat) (h : b.WF)
    (hsize : size ≤ data.length) :
    (b.write data size).2 = min size b.writeAvail ∧
    (b.write data size).1.readData = b.readData ++ data.take (min size b.writeAvail) ∧
    (b.write data size).1.WF := by
  have hlen : (data.take (min size b.writeAvail)).length = min size b.writeAvail := by
    rw [List.length_take]; omega
  have hp := Buffer.poke_wrote b (data.take (min size b.writeAvail)) h (by rw [hlen]; omega)
  rw [hlen] at hp
  exact ⟨rfl, hp.1, hp.2.1⟩

/-- The loop of `write` exits with `size = 0` once the fuel covers `size`, having appended
the first `size` bytes of `data` to the unread bytes of the queue. -/
theorem writeLoop_spec : ∀ (fuel : Nat) (ch : RemoteChannel) (data : List Byte) (size : Nat),
    0 < ch.writeCapacity → QueueWF ch → size ≤ data.length → size ≤ fuel →
    ∃ ch1, writeLoop fuel ch data size = .ok (ch1, 0) ∧
      ch1.queued = ch.queued ++ data.take size ∧ QueueWF ch1 ∧
      ch1 = { ch with outputBuffers_ := ch1.outputBuffers_ } := by
  intro fuel
  induction fuel with
  | zero =>
    intro ch data size _ hq _ hfuel
    have : size = 0 := by omega
    subst this
    exact ⟨ch, by simp [writeLoop], by simp, hq, rfl⟩
  | succ fuel ih =>
    intro ch data size hcap hq hsize hfuel
    by_cases hpos : size > 0
    · obtain ⟨init, hqueue, hav, hbwf, hinit, hbytes, hrest⟩ := nextWriteBuffer_spec ch hcap hq
      obtain ⟨hcount, hdata, hwf⟩ :=
        buffer_write_spec ch.nextWriteBuffer.back data size hbwf hsize
      have hstep : writeLoop (fuel + 1) ch data size
          = writeLoop fuel (ch.nextWriteBuffer.setBack (ch.nextWriteBuffer.back.write data size).1)
              (data.drop (ch.nextWriteBuffer.back.write data size).2)
              (size - (ch.nextWriteBuffer.back.write data size).2) := by
        simp [writeLoop, hpos]
      set ch2 := ch.nextWriteBuffer.setBack (ch.nextWriteBuffer.back.write data size).1 with hch2
      set count := (ch.nextWriteBuffer.back.write data size).2 with hcnt
      have hq2 : ch2.outputBuffers_ = init ++ [(ch.nextWriteBuffer.back.write data size).1] := by
        simp [hch2, setBack, hqueue]
      have hcap2 : ch2.writeCapacity = ch.writeCapacity := by
        rw [hch2, hrest]; rfl
      have hwf2 : QueueWF ch2 := by
        intro b hb
        rw [hq2] at hb
        simp only [List.mem_append, List.mem_singleton] at hb
        rcases hb with hb | hb
        · exact hinit b hb
        · rw [hb]; exact hwf
      have hcpos : 0 < count := by rw [hcount]; omega
      have hcle : count ≤ size := by rw [hcount]; omega
      obtain ⟨ch1, hrun, hqd, hwf1, hsame⟩ := ih ch2 (data.drop count) (size - count)
        (by rw [hcap2]; exact hcap) hwf2 (by rw [List.length_drop]; omega) (by omega)
      refine ⟨ch1, by rw [hstep]; exact hrun, ?_, hwf1, ?_⟩
      · rw [hqd, queued_append ch2 init _ hq2, hdata, ← hcount, ← List.append_assoc, hbytes,
          List.append_assoc]
        congr 1
        conv_rhs => rw [← List.take_append_drop count (data.take size)]
        rw [List.take_take, Nat.min_eq_left hcle, List.drop_take]
      · rw [hsame, hch2, hrest]; rfl
    · have : size = 0 := by omega
      subst this
      exact ⟨ch, by simp [writeLoop], by simp, hq, rfl⟩

/-- `write` returns, with the first `size` bytes of `data` appended to the unread bytes of
the queue and nothing but the queue changed. -/
theorem write_spec (ch : RemoteChannel) (data : List Byte) (size : Nat)
    (hcap : 0 < ch.writeCapacity) (hq : QueueWF ch) (hsize : size ≤ data.length) :
    ∃ ch1, ch.write data size = .ok ch1 ∧
      ch1.queued = ch.queued ++ data.take size ∧ QueueWF ch1 ∧
      ch1 = { ch with outputBuffers_ := ch1.outputBuffers_ } := by
  obtain ⟨ch1, hrun, hqd, hwf, hsame⟩ := writeLoop_spec size ch data size hcap hq hsize le_rfl
  refine ⟨ch1, ?_, hqd, hwf, hsame⟩
  simp [write, hrun, cAssert]

theorem nextWriteBuffer_frame (ch : RemoteChannel) :
    ch.nextWriteBuffer = { ch with outputBuffers_ := ch.nextWriteBuffer.outputBuffers_ } := by
  unfold nextWriteBuffer
  split
  · rfl
  · split <;> rfl

/-- The loop of `write` touches nothing but the output queue. -/
theorem writeLoop_frame : ∀ (fuel : Nat) (ch : RemoteChannel) (data : List Byte) (size : Nat)
    (ch1 : RemoteChannel) (s : Nat), writeLoop fuel ch data size = .ok (ch1, s) →
    ch1 = { ch with outputBuffers_ := ch1.outputBuffers_ } := by
  intro fuel
  induction fuel with
  | zero =>
    intro ch data size ch1 s h
    simp only [writeLoop] at h
    split at h
    · cases h
    · cases h; rfl
  | succ fuel ih =>
    intro ch data size ch1 s h
    simp only [writeLoop] at h
    split at h
    · have h1 := ih _ _ _ _ _ h
      rw [h1]
      simp only [setBack]
      rw [nextWriteBuffer_frame ch]
    · cases h; rfl

/-- `write` touches nothing but the output queue. -/
theorem write_frame (ch : RemoteChannel) (data : List Byte) (size : Nat) (ch1 : RemoteChannel)
    (h : ch.write data size = .ok ch1) :
    ch1 = { ch with outputBuffers_ := ch1.outputBuffers_ } := by
  simp only [write] at h
  split at h
  · cases h
  · rename_i c s hloop
    split at h
    · cases h
    · cases h
      exact writeLoop_frame _ _ _ _ _ _ hloop

/-! ## sendMessageAsync: the wire format (C3) -/

/-- C3: `sendMessageAsync(msg)` hands to the output queue exactly `12 + msg.size` bytes: the
four bytes of `msg.type`, of `msg.cookie`, of `msg.size`, then the `msg.size` payload
bytes, with nothing between or after them, and then calls `onWrite`; for the message
`{type=1, cookie=0, size=5, "hello"}` these are the 17 bytes `01 00 00 00 00 00 00 00
05 00 00 00 68 65 6c 6c 6f`. -/
theorem sendMessageAsync_wire (ch : RemoteChannel) (msg : Message) (outs : List WriteOutcome)
    (hcap : 0 < ch.writeCapacity) (hq : QueueWF ch) (hmsg : msg.size ≤ msg.data.length) :
    ∃ c1 c2 c3 c4,
      ch.write (u32Bytes msg.type) 4 = .ok c1 ∧
      c1.write (u32Bytes msg.cookie) 4 = .ok c2 ∧
      c2.write (u32Bytes msg.size) 4 = .ok c3 ∧
      c3.write msg.data msg.size = .ok c4 ∧
      c4.queued = ch.queued ++ (u32Bytes msg.type ++ u32Bytes msg.cookie ++ u32Bytes msg.size
                    ++ msg.data.take msg.size) ∧
      (u32Bytes msg.type ++ u32Bytes msg.cookie ++ u32Bytes msg.size
          ++ msg.data.take msg.size).length = 12 + msg.size ∧
      c4 = { ch with outputBuffers_ := c4.outputBuffers_ } ∧
      ch.sendMessageAsync msg outs = (c4.onWrite outs).map (fun c => (true, c)) ∧
      frame helloMsg = [1, 0, 0, 0, 0, 0, 0, 0, 5, 0, 0, 0, 0x68, 0x65, 0x6c, 0x6c, 0x6f] := by
  obtain ⟨c1, h1, hq1, hwf1, hs1⟩ := write_spec ch (u32Bytes msg.type) 4 hcap hq (by simp [u32Bytes])
  have hcap1 : 0 < c1.writeCapacity := by rw [hs1]; exact hcap
  obtain ⟨c2, h2, hq2, hwf2, hs2⟩ :=
    write_spec c1 (u32Bytes msg.cookie) 4 hcap1 hwf1 (by simp [u32Bytes])
  have hcap2 : 0 < c2.writeCapacity := by rw [hs2]; exact hcap1
  obtain ⟨c3, h3, hq3, hwf3, hs3⟩ :=
    write_spec c2 (u32Bytes msg.size) 4 hcap2 hwf2 (by simp [u32Bytes])
  have hcap3 : 0 < c3.writeCapacity := by rw [hs3]; exact hcap2
  obtain ⟨c4, h4, hq4, _, hs4⟩ := write_spec c3 msg.data msg.size hcap3 hwf3 hmsg
  refine ⟨c1, c2, c3, c4, h1, h2, h3, h4, ?_, ?_, ?_, ?_, by decide⟩
  · rw [hq4, hq3, hq2, hq1]
    simp [u32Bytes]
  · simp [u32Bytes, List.length_take]; omega
  · rw [hs4, hs3, hs2, hs1]
  · simp only [sendMessageAsync, h1, h2, h3, h4]
    cases c4.onWrite outs <;> rfl

theorem sendMessageAsync_wire_witness :
    ∃ c4, ((((openChannel true).write (u32Bytes 1) 4).bind
              (fun c => c.write (u32Bytes 0) 4)).bind
              (fun c => c.write (u32Bytes 5) 4)).bind
              (fun c => c.write helloMsg.data 5) = .ok c4 ∧
      c4.queued = [1, 0, 0, 0, 0, 0, 0, 0, 5, 0, 0, 0, 0x68, 0x65, 0x6c, 0x6c, 0x6f] ∧
      (openChannel true).sendMessageAsync helloMsg [.accept 17]
        = (c4.onWrite [.accept 17]).map (fun c => (true, c)) ∧
      (((openChannel true).sendMessageAsync helloMsg [.accept 17]).map (fun r => r.2.sent))
        = .ok [1, 0, 0, 0, 0, 0, 0, 0, 5, 0, 0, 0, 0x68, 0x65, 0x6c, 0x6c, 0x6f] := by
  obtain ⟨c1, c2, c3, c4, h1, h2, h3, h4, hq, _, _, hsend, _⟩ :=
    sendMessageAsync_wire (openChannel true) helloMsg [.accept 17] (by decide)
      (by intro b hb; simp [openChannel, RemoteChannel.new] at hb) (by decide)
  refine ⟨c4, ?_, ?_, hsend, by decide⟩
  · have e1 : (helloMsg.type = 1) := rfl
    have e2 : (helloMsg.cookie = 0) := rfl
    have e3 : (helloMsg.size = 5) := rfl
    rw [e1] at h1; rw [e2] at h2; rw [e3] at h3 h4
    simp only [h1, h2, h3, h4, Except.bind]
  · rw [hq]; decide

/-! ## Readiness interest (C5) -/

theorem interest_modifyFd (ch : RemoteChannel) (flags : Nat) :
    (ch.modifyFd flags).interest = some flags := by
  simp [interest, modifyFd]

theorem close_socket (ch : RemoteChannel) : ch.close.socket_ = -1 := by
  by_cases h : ch.socket_ = -1 <;> simp [close, h]

/-- A `return` inside the inner loop of `onWrite` either follows `close()` or follows the
request for Read|Write, with the front buffer still queued. -/
theorem onWriteInner_returned : ∀ (outs : List WriteOutcome) (ch : RemoteChannel) (avail : Nat)
    (c : RemoteChannel), ch.outputBuffers_ ≠ [] →
    onWriteInner outs ch avail = .ok (.returned c) →
    c.socket_ = -1 ∨
      (c.interest = some (CLAP_FD_READ ||| CLAP_FD_WRITE) ∧ c.outputBuffers_ ≠ []) := by
  intro outs
  induction outs with
  | nil =>
    intro ch avail c _ h
    cases avail <;> simp [onWriteInner] at h
  | cons o outs ih =>
    intro ch avail c hne h
    cases avail with
    | zero => simp [onWriteInner] at h
    | succ n =>
      simp only [onWriteInner] at h
      split at h
      · split at h
        · cases h
          exact Or.inr ⟨interest_modifyFd _ _, hne⟩
        · cases h
          exact Or.inl (close_socket ch)
      · split at h
        · cases h
        · exact ih _ _ c (by simp [setFront]) h

/-- How `onWrite` can return: after `close()`, after requesting Read|Write with the queue
non-empty, or after requesting Read with the queue empty. -/
theorem onWriteLoop_returns : ∀ (fuel : Nat) (ch : RemoteChannel) (outs : List WriteOutcome)
    (c : RemoteChannel), onWriteLoop fuel ch outs = .ok c →
    c.socket_ = -1 ∨
      (c.interest = some (CLAP_FD_READ ||| CLAP_FD_WRITE) ∧ c.outputBuffers_ ≠ []) ∨
      (c.interest = some CLAP_FD_READ ∧ c.outputBuffers_ = []) := by
  intro fuel
  induction fuel with
  | zero => intro ch outs c h; simp [onWriteLoop] at h
  | succ fuel ih =>
    intro ch outs c h
    simp only [onWriteLoop] at h
    split at h
    · rename_i hempty
      cases h
      refine Or.inr (Or.inr ⟨interest_modifyFd _ _, ?_⟩)
      simpa [modifyFd] using hempty
    · rename_i hempty
      have hne : ch.outputBuffers_ ≠ [] := by simpa using hempty
      split at h
      · cases h
      · rename_i c1 hinner
        cases h
        rcases onWriteInner_returned _ _ _ _ hne hinner with h1 | h1
        · exact Or.inl h1
        · exact Or.inr (Or.inl h1)
      · exact ih _ _ _ h

/-- C5 (as amended): after every `onWrite` call that returns and leaves the channel open, the
readiness most recently requested through `modifyFd` is Read|Write if and only if the output
queue is non-empty, and Read-only otherwise; `write` makes no `modifyFd` request at all. -/
theorem interest_after_onWrite (ch : RemoteChannel) :
    (∀ outs c, ch.onWrite outs = .ok c → c.socket_ ≠ -1 →
      (c.interest = some (CLAP_FD_READ ||| CLAP_FD_WRITE) ↔ c.outputBuffers_ ≠ []) ∧
      (c.interest = some CLAP_FD_READ ↔ c.outputBuffers_ = [])) ∧
    (∀ data size c, ch.write data size = .ok c → c.evControl_ = ch.evControl_) := by
  constructor
  · intro outs c h hopen
    rcases onWriteLoop_returns _ _ _ _ h with h1 | ⟨h1, h2⟩ | ⟨h1, h2⟩
    · exact absurd h1 hopen
    · refine ⟨⟨fun _ => h2, fun _ => h1⟩, ⟨fun e => ?_, fun e => absurd e h2⟩⟩
      rw [h1] at e
      exact absurd e (by decide)
    · refine ⟨⟨fun e => ?_, fun e => absurd h2 e⟩, ⟨fun _ => h2, fun _ => h1⟩⟩
      rw [h1] at e
      exact absurd e (by decide)
  · intro data size c h
    rw [write_frame ch data size c h]

theorem interest_after_onWrite_witness :
    (queued17 true).onWrite [.error EAGAIN] = .ok ((queued17 true).modifyFd 3) ∧
    ((queued17 true).modifyFd 3).socket_ ≠ -1 ∧
    (((queued17 true).modifyFd 3).interest = some (CLAP_FD_READ ||| CLAP_FD_WRITE)
      ↔ ((queued17 true).modifyFd 3).outputBuffers_ ≠ []) ∧
    (openChannel true).write bytes17 17 = .ok (queued17 true) ∧
    (queued17 true).evControl_ = (openChannel true).evControl_ :=
  ⟨by decide, by decide,
   ((interest_after_onWrite (queued17 true)).1 [.error EAGAIN] _ (by decide) (by decide)).1,
   by decide,
   (interest_after_onWrite (openChannel true)).2 bytes17 17 _ (by decide)⟩

/-- C5 (counterexample to the claim as stated): on an open channel whose last request was
Read-only, `write` of one byte returns with the output queue non-empty while the readiness
most recently requested is still Read-only, not Read|Write. -/
theorem interest_after_write_counterexample :
    (openChannel true).onWrite [] = .ok ((openChannel true).modifyFd CLAP_FD_READ) ∧
    ∃ c, ((openChannel true).modifyFd CLAP_FD_READ).write [7] 1 = .ok c ∧
      c.socket_ ≠ -1 ∧ c.outputBuffers_ ≠ [] ∧ c.queued = [7] ∧
      c.interest = some CLAP_FD_READ ∧
      ¬ (c.interest = some (CLAP_FD_READ ||| CLAP_FD_WRITE) ↔ c.outputBuffers_ ≠ []) := by
  refine ⟨by decide, { (openChannel true).modifyFd CLAP_FD_READ with
    outputBuffers_ := [{ store := 7 :: List.replicate 31 0, readCursor := 0, writeCursor := 1 }] },
    by decide, by decide, by decide, by decide, by decide, by decide⟩

/-! ## Operations on a closed channel (C10) -/

theorem close_closed (ch : RemoteChannel) (h : ch.socket_ = -1) : ch.close = ch := by
  simp [close, h]

theorem onRead_closed (handler : MessageHandler) (ch : RemoteChannel) (o : ReadOutcome)
    (h : ch.socket_ = -1) : onRead handler ch o = ch := by
  simp [onRead, sysRead, h, EBADF, EWOULDBLOCK, EAGAIN, EINTR, close]

/-- On a closed channel the inner loop of `onWrite` changes nothing: it is left at once when
nothing is to be written, and otherwise `::write` fails with `EBADF` and `close()` is a
no-op. -/
theorem onWriteInner_closed (o : WriteOutcome) (outs : List WriteOutcome) (ch : RemoteChannel)
    (avail : Nat) (h : ch.socket_ = -1) :
    onWriteInner (o :: outs) ch avail
      = if avail = 0 then .ok (.drained ch (o :: outs)) else .ok (.returned ch) := by
  cases avail with
  | zero => simp [onWriteInner]
  | succ n => simp [onWriteInner, sysWrite, h, EBADF, EWOULDBLOCK, EAGAIN, EINTR, close]

theorem onWriteInner_closed_frame (outs : List WriteOutcome) (ch : RemoteChannel)
    (avail : Nat) (h : ch.socket_ = -1) (r : InnerExit)
    (hr : onWriteInner outs ch avail = .ok r) :
    r = .drained ch outs ∨ r = .returned ch := by
  cases outs with
  | nil =>
    cases avail with
    | zero => simp [onWriteInner] at hr; exact Or.inl hr.symm
    | succ n => simp [onWriteInner] at hr
  | cons o outs =>
    rw [onWriteInner_closed o outs ch avail h] at hr
    split at hr
    · cases hr; exact Or.inl rfl
    · cases hr; exact Or.inr rfl

/-- On a closed channel `onWrite` touches nothing but the output queue (it may pop buffers
that hold no unread bytes) and the list of `modifyFd` requests. -/
theorem onWriteLoop_closed : ∀ (fuel : Nat) (ch : RemoteChannel) (outs : List WriteOutcome)
    (c : RemoteChannel), ch.socket_ = -1 → onWriteLoop fuel ch outs = .ok c →
    c = { ch with outputBuffers_ := c.outputBuffers_, evControl_ := c.evControl_ } := by
  intro fuel
  induction fuel with
  | zero => intro ch outs c _ h; simp [onWriteLoop] at h
  | succ fuel ih =>
    intro ch outs c hclosed h
    simp only [onWriteLoop] at h
    split at h
    · cases h; rfl
    · split at h
      · cases h
      · rename_i c1 hinner
        cases h
        rcases onWriteInner_closed_frame _ _ _ hclosed _ hinner with e | e
        · cases e
        · cases e; rfl
      · rename_i c1 outs1 hinner
        rcases onWriteInner_closed_frame _ _ _ hclosed _ hinner with e | e
        · cases e
          have := ih ch.pop outs c hclosed h
          rw [this]; rfl
        · cases e

/-- C10 (as amended): on a closed channel (socket handle `-1`) `onRead` is a no-op with no
observable side effect; `write(data, size)` changes nothing but the output queue (no handler
call, no `modifyFd` request, input buffer and cookie counter unchanged), to whose unread
bytes it appends the `size` bytes; `onWrite` changes
nothing but the output queue and the `modifyFd` requests: it sends nothing, it is a no-op
when the front buffer has unread bytes, and on an empty queue it requests Read-only
readiness. -/
theorem closed_channel_ops (ch : RemoteChannel) (hclosed : ch.socket_ = -1) :
    (∀ handler o, onRead handler ch o = ch) ∧
    (∀ data size c, ch.write data size = .ok c →
      c = { ch with outputBuffers_ := c.outputBuffers_ }) ∧
    (∀ data size, 0 < ch.writeCapacity → QueueWF ch → size ≤ data.length →
      ∃ c, ch.write data size = .ok c ∧ c.queued = ch.queued ++ data.take size) ∧
    (∀ outs c, ch.onWrite outs = .ok c →
      c = { ch with outputBuffers_ := c.outputBuffers_, evControl_ := c.evControl_ }) ∧
    (∀ o outs, ch.outputBuffers_ ≠ [] → 0 < ch.front.readAvail →
      ch.onWrite (o :: outs) = .ok ch) ∧
    (∀ outs, ch.outputBuffers_ = [] → ch.onWrite outs = .ok (ch.modifyFd CLAP_FD_READ)) := by
  refine ⟨fun handler o => onRead_closed handler ch o hclosed,
    fun data size c h => write_frame ch data size c h,
    fun data size hcap hq hsize => ?_,
    fun outs c h => onWriteLoop_closed _ ch outs c hclosed h, ?_, ?_⟩
  · obtain ⟨c, h1, h2, _, _⟩ := write_spec ch data size hcap hq hsize
    exact ⟨c, h1, h2⟩
  · intro o outs hne hav
    have hav0 : ¬ ch.front.readAvail = 0 := by omega
    simp [onWrite, onWriteLoop, hne, onWriteInner_closed o outs ch _ hclosed, hav0]
  · intro outs hnil
    simp [onWrite, onWriteLoop, hnil]

theorem closed_channel_ops_witness :
    (closedChannel true).socket_ = -1 ∧
    onRead (fun _ c => c) (closedChannel true) (.data bytes17) = closedChannel true ∧
    (closedChannel true).onWrite [] = .ok ((closedChannel true).modifyFd CLAP_FD_READ) :=
  ⟨by decide,
   (closed_channel_ops (closedChannel true) (by decide)).1 (fun _ c => c) (.data bytes17),
   (closed_channel_ops (closedChannel true) (by decide)).2.2.2.2.2 [] (by decide)⟩

/-- C10 (counterexample to the claim as stated): on a closed channel `write` of one byte
appends a buffer holding that byte to the output queue, and `onWrite` on the empty queue
makes a `modifyFd(Read)` request. -/
theorem closed_channel_counterexample :
    (closedChannel true).socket_ = -1 ∧
    (closedChannel true).outputBuffers_ = [] ∧ (closedChannel true).evControl_ = [] ∧
    (∃ c, (closedChannel true).write [7] 1 = .ok c ∧ c.queued = [7] ∧
      c.outputBuffers_ ≠ (closedChannel true).outputBuffers_) ∧
    (∃ c, (closedChannel true).onWrite [] = .ok c ∧ c.evControl_ = [CLAP_FD_READ] ∧
      c.evControl_ ≠ (closedChannel true).evControl_) := by
  refine ⟨by decide, by decide, by decide,
    ⟨{ closedChannel true with
        outputBuffers_ := [{ store := 7 :: List.replicate 31 0, readCursor := 0, writeCursor := 1 }] },
      by decide, by decide, by decide⟩,
    ⟨(closedChannel true).modifyFd CLAP_FD_READ, by decide, by decide, by decide⟩⟩

/-! ## Termination of `onWrite` -/

/-- The inner loop of `onWrite` keeps the number of queued buffers. -/
theorem onWriteInner_drained_length : ∀ (outs : List WriteOutcome) (ch : RemoteChannel)
    (avail : Nat) (c : RemoteChannel) (outs1 : List WriteOutcome), ch.outputBuffers_ ≠ [] →
    onWriteInner outs ch avail = .ok (.drained c outs1) →
    c.outputBuffers_.length = ch.outputBuffers_.length := by
  intro outs
  induction outs with
  | nil =>
    intro ch avail c outs1 _ h
    cases avail with
    | zero => simp only [onWriteInner] at h; cases h; rfl
    | succ n => simp [onWriteInner] at h
  | cons o outs ih =>
    intro ch avail c outs1 hne h
    cases avail with
    | zero => simp only [onWriteInner] at h; cases h; rfl
    | succ n =>
      simp only [onWriteInner] at h
      split at h
      · split at h <;> cases h
      · split at h
        · cases h
        · rw [ih _ _ c outs1 (by simp [setFront]) h]
          cases hq : ch.outputBuffers_ with
          | nil => exact absurd hq hne
          | cons b rest => simp [setFront, hq]

theorem onWriteInner_no_diverges : ∀ (outs : List WriteOutcome) (ch : RemoteChannel)
    (avail line : Nat), onWriteInner outs ch avail ≠ .error (.diverges line) := by
  intro outs
  induction outs with
  | nil =>
    intro ch avail line h
    cases avail <;> simp [onWriteInner] at h
  | cons o outs ih =>
    intro ch avail line h
    cases avail with
    | zero => simp [onWriteInner] at h
    | succ n =>
      simp only [onWriteInner] at h
      split at h
      · split at h <;> cases h
      · split at h
        · rename_i f hassert
          cases h
          simp only [cAssert] at hassert
          split at hassert <;> cases hassert
        · exact ih _ _ _ h

/-- The outer loop of `onWrite` is never cut short by its iteration bound: every iteration
that does not return pops a buffer. -/
theorem onWriteLoop_no_diverges : ∀ (fuel : Nat) (ch : RemoteChannel)
    (outs : List WriteOutcome) (line : Nat), ch.outputBuffers_.length < fuel →
    onWriteLoop fuel ch outs ≠ .error (.diverges line) := by
  intro fuel
  induction fuel with
  | zero => intro ch outs line h; omega
  | succ fuel ih =>
    intro ch outs line hlen h
    simp only [onWriteLoop] at h
    split at h
    · cases h
    · rename_i hempty
      have hne : ch.outputBuffers_ ≠ [] := by simpa using hempty
      split at h
      · rename_i f hinner
        cases h
        exact onWriteInner_no_diverges _ _ _ _ hinner
      · cases h
      · rename_i c outs1 hinner
        have hl := onWriteInner_drained_length _ _ _ _ _ hne hinner
        refine ih c.pop outs1 line ?_ h
        have hpos : 0 < ch.outputBuffers_.length := List.length_pos.mpr hne
        simp only [pop, List.length_tail]
        omega

theorem onWrite_no_diverges (ch : RemoteChannel) (outs : List WriteOutcome) (line : Nat) :
    ch.onWrite outs ≠ .error (.diverges line) :=
  onWriteLoop_no_diverges _ ch outs line (Nat.lt_succ_self _)

/-! ## The slip in `onWrite` (failing inputs of C2 and C4) -/

/-- C2 (evaluation at the failing input): 17 bytes are queued and the socket accepts 10 of
them, then 7. In an `NDEBUG` build `onWrite` returns with the queue empty, but the bytes the
socket accepted are the first 10 bytes followed by the first 7 bytes again, which is not a
prefix of the queued data; without `NDEBUG` the assertion at line 76 aborts the call after
the first `::write`. -/
theorem onWrite_short_write_resends :
    (openChannel true).write bytes17 17 = .ok (queued17 true) ∧
    ((queued17 true).onWrite [.accept 10, .accept 7]).map (fun c => (c.sent, c.outputBuffers_))
      = .ok ([1, 2, 3, 4, 5, 6, 7, 8, 9, 10, 1, 2, 3, 4, 5, 6, 7], []) ∧
    ¬ ([1, 2, 3, 4, 5, 6, 7, 8, 9, 10, 1, 2, 3, 4, 5, 6, 7] <+: bytes17) ∧
    (openChannel false).write bytes17 17 = .ok (queued17 false) ∧
    (queued17 false).onWrite [.accept 10, .accept 7] = .error (.assertion 76) := by
  refine ⟨by decide, by decide, by decide, by decide, by decide⟩

/-- C4 (evaluation at the failing input, n = 17 and k = 10): the socket accepts 10 of the 17
queued bytes and then reports `EAGAIN`. In an `NDEBUG` build `onWrite` returns having
requested Read|Write, but the front buffer has its read cursor still at 0 and its write
cursor at 27: 27 bytes are unread, starting with the 10 bytes already sent, and a following
`onWrite` in which the socket accepts everything sends 27 bytes that begin with all 17
queued bytes; without `NDEBUG` the assertion at line 76 aborts the first call. -/
theorem onWrite_would_block_keeps_sent_bytes :
    ((queued17 true).onWrite [.accept 10, .error EAGAIN]).map
        (fun c => (c.sent, c.evControl_, c.outputBuffers_.map
          (fun b => (b.readCursor, b.writeCursor, b.readAvail))))
      = .ok ([1, 2, 3, 4, 5, 6, 7, 8, 9, 10], [CLAP_FD_READ ||| CLAP_FD_WRITE], [(0, 27, 27)]) ∧
    (((queued17 true).onWrite [.accept 10, .error EAGAIN]).bind
        (fun c => c.onWrite [.accept 27])).map
        (fun c => ((c.sent.drop 10).length, (c.sent.drop 10).take 17, c.evControl_,
          c.outputBuffers_))
      = .ok (27, bytes17, [CLAP_FD_READ ||| CLAP_FD_WRITE, CLAP_FD_READ], []) ∧
    (queued17 false).onWrite [.accept 10, .error EAGAIN] = .error (.assertion 76) := by
  refine ⟨by decide, by decide, by decide⟩

/-! ## The read path: reassembly (C1) -/

theorem u32_roundtrip (v : Nat) (hv : v < 2 ^ 32) :
    v % 256 + 256 * (v / 256 % 256) + 65536 * (v / 65536 % 256)
      + 16777216 * (v / 16777216 % 256) = v := by
  omega

theorem frame_header (m : Message) (hm : m.WF) (rest : List Byte) :
    u32At (frame m ++ rest) 0 = m.type ∧ u32At (frame m ++ rest) 4 = m.cookie ∧
    u32At (frame m ++ rest) 8 = m.size := by
  obtain ⟨h1, h2, h3, _⟩ := hm
  refine ⟨?_, ?_, ?_⟩
  · simp [frame, u32Bytes, u32At]
    exact u32_roundtrip _ h1
  · simp [frame, u32Bytes, u32At]
    exact u32_roundtrip _ h2
  · simp [frame, u32Bytes, u32At]
    exact u32_roundtrip _ h3

theorem frame_length (m : Message) (hm : m.WF) : (frame m).length = 12 + m.size := by
  obtain ⟨_, _, _, h4⟩ := hm
  simp [frame, u32Bytes, h4]
  omega

theorem frame_payload (m : Message) (hm : m.WF) (rest : List Byte) :
    ((frame m ++ rest).drop 12).take m.size = m.data := by
  obtain ⟨_, _, _, h4⟩ := hm
  simp [frame, u32Bytes, h4]

theorem u32At_append (w tail : List Byte) (off : Nat) (h : off + 4 ≤ w.length) :
    u32At (w ++ tail) off = u32At w off := by
  simp only [u32At]
  rw [List.getD_append _ _ _ _ (by omega), List.getD_append _ _ _ _ (by omega),
    List.getD_append _ _ _ _ (by omega), List.getD_append _ _ _ _ (by omega)]

/-- A proper beginning of a frame does not satisfy the loop condition of `parseInput`. -/
theorem incomplete_of_proper_prefix (g : Message) (hg : g.WF) (w tail : List Byte)
    (h : w ++ tail = frame g) (ht : tail ≠ []) : Complete w = false := by
  have hlen : w.length + tail.length = 12 + g.size := by
    rw [← frame_length g hg, ← h, List.length_append]
  have htl : 0 < tail.length := List.length_pos.mpr ht
  simp only [Complete, Bool.and_eq_false_iff, decide_eq_false_iff_not, Nat.not_le]
  by_cases h12 : w.length < 12
  · exact Or.inl h12
  · right
    have hsz : u32At w 8 = g.size := by
      rw [← u32At_append w tail 8 (by omega), h]
      have := (frame_header g hg []).2.2
      simpa using this
    omega

theorem frames_cons (m : Message) (msgs : List Message) :
    frames (m :: msgs) = frame m ++ frames msgs := by
  simp [frames]

theorem frames_append (m1 m2 : List Message) : frames (m1 ++ m2) = frames m1 ++ frames m2 := by
  simp [frames]

theorem frames_length_ge (msgs : List Message) (h : ∀ m ∈ msgs, m.WF) :
    msgs.length ≤ (frames msgs).length := by
  induction msgs with
  | nil => simp
  | cons m msgs ih =>
    rw [frames_cons, List.length_append, frame_length m (h m (by simp)), List.length_cons]
    have := ih (fun x hx => h x (by simp [hx]))
    omega

/-- Any beginning `w` of a stream of frames followed by a proper beginning `p` of one more
frame splits into whole frames and an incomplete rest. -/
theorem split_stream (g : Message) (hg : g.WF) (p ptail : List Byte) (hp : p ++ ptail = frame g)
    (hpt : ptail ≠ []) : ∀ (msgs : List Message) (w tail : List Byte), (∀ m ∈ msgs, m.WF) →
    w ++ tail = frames msgs ++ p →
    ∃ m1 m2 u1, msgs = m1 ++ m2 ∧ w = frames m1 ++ u1 ∧ Complete u1 = false ∧
      u1 ++ tail = frames m2 ++ p := by
  intro msgs
  induction msgs with
  | nil =>
    intro w tail _ h
    refine ⟨[], [], w, rfl, by simp [frames], ?_, by simpa [frames] using h⟩
    simp only [frames, List.map_nil, List.flatten_nil, List.nil_append] at h
    apply incomplete_of_proper_prefix g hg w (tail ++ ptail)
    · rw [← List.append_assoc, h, hp]
    · simp [hpt]
  | cons m msgs ih =>
    intro w tail hwf h
    have hm : m.WF := hwf m (by simp)
    rw [frames_cons, List.append_assoc] at h
    by_cases hlen : (frame m).length ≤ w.length
    · obtain ⟨w1, hw1⟩ : ∃ w1, w = frame m ++ w1 := by
        rcases (List.append_eq_append_iff.mp h) with ⟨a, ha, _⟩ | ⟨c, hc, _⟩
        · have : a = [] := by
            have hl := congrArg List.length ha
            rw [List.length_append] at hl
            exact List.length_eq_zero.mp (by omega)
          subst this
          exact ⟨[], by rw [List.append_nil] at ha ⊢; exact ha.symm⟩
        · exact ⟨c, hc⟩
      subst hw1
      rw [List.append_assoc] at h
      have h2 := List.append_cancel_left h
      obtain ⟨m1, m2, u1, e1, e2, e3, e4⟩ := ih w1 tail (fun x hx => hwf x (by simp [hx])) h2
      exact ⟨m :: m1, m2, u1, by rw [e1]; rfl, by rw [e2, frames_cons, List.append_assoc], e3, e4⟩
    · refine ⟨[], m :: msgs, w, rfl, by simp [frames], ?_, by
        rw [frames_cons, List.append_assoc]; exact h⟩
      obtain ⟨t1, ht1⟩ : ∃ t1, w ++ t1 = frame m := by
        rcases (List.append_eq_append_iff.mp h) with ⟨a, ha, _⟩ | ⟨c, hc, _⟩
        · exact ⟨a, ha.symm⟩
        · have hl := congrArg List.length hc
          rw [List.length_append] at hl
          omega
      apply incomplete_of_proper_prefix m hm w t1 ht1
      intro e
      subst e
      rw [List.append_nil] at ht1
      rw [ht1] at hlen
      exact hlen le_rfl

theorem parseLoop_stop (handler : MessageHandler) (fuel : Nat) (ch : RemoteChannel)
    (h : ch.inputBuffer_.readAvail < 12 ∨
      ch.inputBuffer_.readAvail < 12 + u32At ch.inputBuffer_.readData 8) :
    parseLoop handler fuel ch = ch := by
  cases fuel with
  | zero => rfl
  | succ fuel =>
    rw [parseLoop]
    by_cases h1 : ch.inputBuffer_.readAvail < 12
    · simp [h1]
    · have h2 : ch.inputBuffer_.readAvail < 12 + u32At ch.inputBuffer_.readData 8 := by
        rcases h with h | h
        · exact absurd h h1
        · exact h
      simp [h1, h2]

theorem parseLoop_step (handler : MessageHandler) (fuel : Nat) (ch : RemoteChannel)
    (h1 : ¬ ch.inputBuffer_.readAvail < 12)
    (h2 : ¬ ch.inputBuffer_.readAvail < 12 + u32At ch.inputBuffer_.readData 8) :
    parseLoop handler (fuel + 1) ch
      = parseLoop handler fuel
          (handler
            { type := u32At ch.inputBuffer_.readData 0, cookie := u32At ch.inputBuffer_.readData 4,
              size := u32At ch.inputBuffer_.readData 8,
              data := (ch.inputBuffer_.readData.drop 12).take (u32At ch.inputBuffer_.readData 8) }
            { ch with
              inputBuffer_ := ch.inputBuffer_.consumed (12 + u32At ch.inputBuffer_.readData 8)
              handled := ch.handled ++
                [{ type := u32At ch.inputBuffer_.readData 0,
                   cookie := u32At ch.inputBuffer_.readData 4,
                   size := u32At ch.inputBuffer_.readData 8,
                   data := (ch.inputBuffer_.readData.drop 12).take
                     (u32At ch.inputBuffer_.readData 8) }] }) := by
  rw [parseLoop]
  simp only [h1, h2, if_false]

/-- The parse loop on unread bytes that consist of whole frames and an incomplete rest:
the handler is invoked with the messages of the frames, in order, and the rest stays
unread. -/
theorem parseLoop_frames (handler : MessageHandler) (hpassive : Passive handler) :
    ∀ (msgs : List Message) (fuel : Nat) (ch : RemoteChannel) (rest : List Byte),
    ch.inputBuffer_.WF → ch.inputBuffer_.readData = frames msgs ++ rest →
    (∀ m ∈ msgs, m.WF) → Complete rest = false → msgs.length ≤ fuel →
    (parseLoop handler fuel ch).handled = ch.handled ++ msgs ∧
    (parseLoop handler fuel ch).inputBuffer_.readData = rest ∧
    (parseLoop handler fuel ch).inputBuffer_.WF ∧
    (parseLoop handler fuel ch).inputBuffer_.capacity = ch.inputBuffer_.capacity ∧
    (parseLoop handler fuel ch).socket_ = ch.socket_ := by
  intro msgs
  induction msgs with
  | nil =>
    intro fuel ch rest hwf hdata _ hinc _
    simp only [frames, List.map_nil, List.flatten_nil, List.nil_append] at hdata
    have hlen := Buffer.readData_length _ hwf
    rw [hdata] at hlen
    rw [parseLoop_stop]
    · simp [hdata, hwf]
    · simp only [Complete, Bool.and_eq_false_iff, decide_eq_false_iff_not, Nat.not_le] at hinc
      rw [hdata, ← hlen]
      exact hinc
  | cons m msgs ih =>
    intro fuel ch rest hwf hdata hmsgs hinc hfuel
    have hm : m.WF := hmsgs m (by simp)
    rw [frames_cons, List.append_assoc] at hdata
    obtain ⟨ht, hc, hs⟩ := frame_header m hm (frames msgs ++ rest)
    have hpay := frame_payload m hm (frames msgs ++ rest)
    rw [← hdata] at ht hc hs hpay
    have hlen := Buffer.readData_length _ hwf
    have hlen2 : ch.inputBuffer_.readData.length = 12 + m.size + (frames msgs ++ rest).length := by
      rw [hdata, List.length_append, frame_length m hm]
    cases fuel with
    | zero => simp at hfuel
    | succ fuel =>
      rw [parseLoop_step handler fuel ch (by omega) (by rw [hs]; omega)]
      rw [ht, hc, hs, hpay]
      have hmsg : ({ type := m.type, cookie := m.cookie, size := m.size, data := m.data }
          : Message) = m := rfl
      rw [hmsg]
      obtain ⟨p1, p2, p3⟩ := hpassive m
        { ch with inputBuffer_ := ch.inputBuffer_.consumed (12 + m.size)
                  handled := ch.handled ++ [m] }
      obtain ⟨q1, q2, _⟩ := Buffer.consumed_readData ch.inputBuffer_ (12 + m.size) hwf (by omega)
      have hrd : (ch.inputBuffer_.consumed (12 + m.size)).readData = frames msgs ++ rest := by
        rw [q1, hdata, ← frame_length m hm, List.drop_left]
      have hcapc : (ch.inputBuffer_.consumed (12 + m.size)).capacity = ch.inputBuffer_.capacity := rfl
      obtain ⟨r1, r2, r3, r4, r5⟩ := ih fuel _ rest (by rw [p1]; exact q2) (by rw [p1]; exact hrd)
        (fun x hx => hmsgs x (by simp [hx])) hinc (by simpa using hfuel)
      refine ⟨?_, r2, r3, ?_, ?_⟩
      · rw [r1, p2]; simp
      · rw [r4, p1, hcapc]
      · rw [r5, p3]

/-- One read event that finds `chunk` ready: the unread bytes become the old ones followed by
`chunk`, the handler is invoked with the messages of the whole frames among them, and the
incomplete rest stays unread, moved to the start of the buffer. -/
theorem onRead_data (handler : MessageHandler) (hpassive : Passive handler)
    (ch : RemoteChannel) (chunk : List Byte) (m1 : List Message) (u1 : List Byte)
    (hopen : 0 ≤ ch.socket_) (hwf : ch.inputBuffer_.WF)
    (hfit : chunk.length ≤ ch.inputBuffer_.writeAvail)
    (hdata : ch.inputBuffer_.readData ++ chunk = frames m1 ++ u1)
    (hmsgs : ∀ m ∈ m1, m.WF) (hinc : Complete u1 = false) :
    (onRead handler ch (.data chunk)).handled = ch.handled ++ m1 ∧
    (onRead handler ch (.data chunk)).inputBuffer_.readData = u1 ∧
    (onRead handler ch (.data chunk)).inputBuffer_.WF ∧
    (onRead handler ch (.data chunk)).socket_ = ch.socket_ := by
  have hfd : ¬ ch.socket_ < 0 := by omega
  obtain ⟨b1, b2, _, _, b5⟩ := Buffer.poke_wrote ch.inputBuffer_ chunk hwf hfit
  have hstep : onRead handler ch (.data chunk)
      = { parseInput handler
            { ch with inputBuffer_ := (ch.inputBuffer_.poke chunk).wrote chunk.length } with
          inputBuffer_ := (parseInput handler
            { ch with inputBuffer_ := (ch.inputBuffer_.poke chunk).wrote chunk.length }
            ).inputBuffer_.rewind } := by
    simp only [onRead, sysRead, hfd, if_false, List.take_of_length_le hfit]
  have hfuel : m1.length ≤ ((ch.inputBuffer_.poke chunk).wrote chunk.length).readAvail := by
    rw [← Buffer.readData_length _ b2, b1, hdata, List.length_append]
    have := frames_length_ge m1 hmsgs
    omega
  obtain ⟨r1, r2, r3, _, r5⟩ := parseLoop_frames handler hpassive m1
    ((ch.inputBuffer_.poke chunk).wrote chunk.length).readAvail
    { ch with inputBuffer_ := (ch.inputBuffer_.poke chunk).wrote chunk.length } u1
    b2 (by rw [← hdata]; exact b1) hmsgs hinc hfuel
  obtain ⟨w1, w2, _, _, _⟩ := Buffer.rewind_readData _ r3
  rw [hstep]
  exact ⟨r1, by rw [← r2]; exact w1, w2, r5⟩

/-- A sequence of read events from a state whose unread bytes are incomplete. -/
theorem runReads_frames (handler : MessageHandler) (hpassive : Passive handler)
    (g : Message) (hg : g.WF) (p ptail : List Byte) (hp : p ++ ptail = frame g)
    (hpt : ptail ≠ []) :
    ∀ (chunks : List (List Byte)) (ch : RemoteChannel) (msgs : List Message),
    0 ≤ ch.socket_ → ch.inputBuffer_.WF → Complete ch.inputBuffer_.readData = false →
    (∀ m ∈ msgs, m.WF) → ch.inputBuffer_.readData ++ chunks.flatten = frames msgs ++ p →
    readsFit handler ch chunks = true →
    (runReads handler ch chunks).handled = ch.handled ++ msgs ∧
    (runReads handler ch chunks).inputBuffer_.readData = p := by
  intro chunks
  induction chunks with
  | nil =>
    intro ch msgs _ _ hinc hmsgs hdata _
    simp only [List.flatten_nil, List.append_nil] at hdata
    cases msgs with
    | nil => simpa [runReads, frames] using hdata
    | cons m msgs =>
      exfalso
      have hm : m.WF := hmsgs m (by simp)
      rw [frames_cons, List.append_assoc] at hdata
      have hs := (frame_header m hm (frames msgs ++ p)).2.2
      rw [← hdata] at hs
      have hl := congrArg List.length hdata
      rw [List.length_append, frame_length m hm] at hl
      simp [Complete, hs] at hinc
      omega
  | cons chunk chunks ih =>
    intro ch msgs hopen hwf _ hmsgs hdata hfit
    simp only [readsFit, Bool.and_eq_true, decide_eq_true_eq] at hfit
    rw [List.flatten_cons, ← List.append_assoc] at hdata
    obtain ⟨m1, m2, u1, e1, e2, e3, e4⟩ :=
      split_stream g hg p ptail hp hpt msgs _ _ hmsgs hdata
    have hm1 : ∀ m ∈ m1, m.WF := fun m hm => hmsgs m (by rw [e1]; simp [hm])
    have hm2 : ∀ m ∈ m2, m.WF := fun m hm => hmsgs m (by rw [e1]; simp [hm])
    obtain ⟨s1, s2, s3, s4⟩ := onRead_data handler hpassive ch chunk m1 u1 hopen hwf hfit.1
      e2 hm1 e3
    obtain ⟨t1, t2⟩ := ih (onRead handler ch (.data chunk)) m2 (by rw [s4]; exact hopen) s3
      (by rw [s2]; exact e3) hm2 (by rw [s2]; exact e4) hfit.2
    have hrun : runReads handler ch (chunk :: chunks)
        = runReads handler (onRead handler ch (.data chunk)) chunks := by
      simp [runReads]
    rw [hrun]
    exact ⟨by rw [t1, s1, e1, List.append_assoc], t2⟩

/-- C1: let the bytes of N complete frames, followed by a proper beginning `p` of one more
frame (`p` is empty in the claim), be split in any way into chunks that successive
successful `::read` calls return. Then the sequence of `onRead` calls invokes the message
handler exactly N times, in frame order, each time with the type, cookie, size and payload of
the corresponding frame, and `p` is what stays unread. In particular a 17-byte frame
delivered as 5 bytes and then 12 yields no handler call after the first `onRead` and exactly
one after the second. -/
theorem onRead_reassembles (handler : MessageHandler) (hpassive : Passive handler)
    (ch : RemoteChannel) (msgs : List Message) (g : Message) (p ptail : List Byte)
    (chunks : List (List Byte))
    (hopen : 0 ≤ ch.socket_) (hwf : ch.inputBuffer_.WF) (hempty : ch.inputBuffer_.readAvail = 0)
    (hmsgs : ∀ m ∈ msgs, m.WF) (hg : g.WF) (hp : p ++ ptail = frame g) (hpt : ptail ≠ [])
    (hsplit : chunks.flatten = frames msgs ++ p)
    (hfit : readsFit handler ch chunks = true) :
    (runReads handler ch chunks).handled = ch.handled ++ msgs ∧
    (runReads handler ch chunks).inputBuffer_.readData = p := by
  have hnil : ch.inputBuffer_.readData = [] := by
    apply List.eq_nil_of_length_eq_zero
    rw [Buffer.readData_length _ hwf, hempty]
  exact runReads_frames handler hpassive g hg p ptail hp hpt chunks ch msgs hopen hwf
    (by rw [hnil]; rfl) hmsgs (by rw [hnil]; exact hsplit) hfit

theorem passive_id : Passive (fun _ c => c) := fun _ _ => ⟨rfl, rfl, rfl⟩

theorem onRead_reassembles_witness :
    ((runReads (fun _ c => c) (openChannel true) [(frame helloMsg).take 5]).handled = [] ∧
     (runReads (fun _ c => c) (openChannel true) [(frame helloMsg).take 5]).inputBuffer_.readData
        = [1, 0, 0, 0, 0]) ∧
    ((runReads (fun _ c => c) (openChannel true)
        [(frame helloMsg).take 5, (frame helloMsg).drop 5]).handled = [helloMsg] ∧
     (runReads (fun _ c => c) (openChannel true)
        [(frame helloMsg).take 5, (frame helloMsg).drop 5]).inputBuffer_.readData = []) :=
  ⟨onRead_reassembles (fun _ c => c) passive_id (openChannel true) [] helloMsg
      [1, 0, 0, 0, 0] ((frame helloMsg).drop 5) [(frame helloMsg).take 5]
      (by decide) (by decide) (by decide) (by simp) (by decide) (by decide) (by decide)
      (by decide) (by decide),
   onRead_reassembles (fun _ c => c) passive_id (openChannel true) [helloMsg] helloMsg
      [] (frame helloMsg) [(frame helloMsg).take 5, (frame helloMsg).drop 5]
      (by decide) (by decide) (by decide) (by simp; decide) (by decide) (by decide) (by decide)
      (by decide) (by decide)⟩

/-! ## Cookies (C6, C7, C8) -/

theorem cookie_set_eq (c : Nat) (hc : c < 2 ^ 32) :
    (c ||| (1 <<< 31)) % 2 ^ 32 = c ||| 2 ^ 31 := by
  rw [Nat.one_shiftLeft]
  exact Nat.mod_eq_of_lt (Nat.or_lt_two_pow hc (by norm_num))

theorem cookie_clear_testBit (c : Nat) (hc : c < 2 ^ 32) (i : Nat) :
    ((c &&& ((2 ^ 64 - 1) ^^^ (1 <<< 31))) % 2 ^ 32).testBit i
      = (c.testBit i && decide (i ≠ 31)) := by
  rw [Nat.testBit_mod_two_pow, Nat.testBit_and, Nat.testBit_xor, Nat.testBit_two_pow_sub_one,
    Nat.one_shiftLeft, Nat.testBit_two_pow]
  by_cases h32 : i < 32
  · by_cases h31 : i = 31
    · subst h31; simp
    · have h64 : i < 64 := by omega
      have h31b : ¬ (31 = i) := fun h => h31 h.symm
      simp [h32, h64, h31, h31b]
  · have hbit : c.testBit i = false :=
      Nat.testBit_lt_two_pow (lt_of_lt_of_le hc (Nat.pow_le_pow_right (by norm_num) (by omega)))
    simp [h32, hbit]

theorem cookie_clear_eq (c : Nat) (hc : c < 2 ^ 32) :
    (c &&& ((2 ^ 64 - 1) ^^^ (1 <<< 31))) % 2 ^ 32 = c % 2 ^ 31 := by
  apply Nat.eq_of_testBit_eq
  intro i
  rw [cookie_clear_testBit c hc, Nat.testBit_mod_two_pow]
  by_cases h31 : i < 31
  · have : i ≠ 31 := by omega
    simp [h31, this]
  · by_cases h : i = 31
    · subst h; simp
    · have hbit : c.testBit i = false :=
        Nat.testBit_lt_two_pow (lt_of_lt_of_le hc (Nat.pow_le_pow_right (by norm_num) (by omega)))
      simp [h31, hbit]

theorem or_two_pow_31 (c : Nat) (hc : c < 2 ^ 31) : c ||| 2 ^ 31 = 2 ^ 31 + c := by
  have h := Nat.mul_add_lt_is_or hc 1
  rw [Nat.mul_one] at h
  rw [h, Nat.or_comm]

theorem cookie_value (ch : RemoteChannel) (hc : ch.nextCookie_ < 2 ^ 31) :
    ch.computeNextCookie.1 = halfBase ch.cookieHalf_ + ch.nextCookie_ := by
  have hc32 : ch.nextCookie_ < 2 ^ 32 := by omega
  cases hh : ch.cookieHalf_
  · simp only [computeNextCookie, hh, halfBase, Bool.false_eq_true, if_false]
    rw [cookie_clear_eq _ hc32, Nat.mod_eq_of_lt hc]; simp
  · simp only [computeNextCookie, hh, halfBase, if_true]
    rw [cookie_set_eq _ hc32, or_two_pow_31 _ hc]

theorem cookie_next (ch : RemoteChannel) :
    ch.computeNextCookie.2.nextCookie_ = (ch.nextCookie_ + 1) % 2 ^ 32 ∧
    ch.computeNextCookie.2.cookieHalf_ = ch.cookieHalf_ := ⟨rfl, rfl⟩

theorem cookies_lower (n : Nat) : ∀ ch : RemoteChannel, ch.nextCookie_ + n ≤ 2 ^ 31 →
    ∀ y ∈ cookies n ch, halfBase ch.cookieHalf_ + ch.nextCookie_ ≤ y := by
  induction n with
  | zero => intro ch _ y hy; simp [cookies] at hy
  | succ n ih =>
    intro ch hn y hy
    simp only [cookies, List.mem_cons] at hy
    rcases hy with hy | hy
    · rw [hy, cookie_value ch (by omega)]
    · have hnext := (cookie_next ch).1
      have hhalf := (cookie_next ch).2
      rw [Nat.mod_eq_of_lt (by omega)] at hnext
      have := ih ch.computeNextCookie.2 (by rw [hnext]; omega) y hy
      rw [hnext, hhalf] at this
      omega

theorem cookies_pairwise (n : Nat) : ∀ ch : RemoteChannel, ch.nextCookie_ + n ≤ 2 ^ 31 →
    (cookies n ch).Pairwise (· < ·) := by
  induction n with
  | zero => intro ch _; simp [cookies]
  | succ n ih =>
    intro ch hn
    have hnext := (cookie_next ch).1
    have hhalf := (cookie_next ch).2
    rw [Nat.mod_eq_of_lt (by omega)] at hnext
    simp only [cookies, List.pairwise_cons]
    refine ⟨?_, ih _ (by rw [hnext]; omega)⟩
    intro y hy
    have := cookies_lower n ch.computeNextCookie.2 (by rw [hnext]; omega) y hy
    rw [hnext, hhalf] at this
    rw [cookie_value ch (by omega)]
    omega

/-- C6: for a channel with half flag `h` and 32-bit counter `c`, `computeNextCookie` returns
`c | 2^31` when `h` is true and `c` with bit 31 cleared when `h` is false (bit 31 of the
result is `h`, every other bit is that of `c`), and afterwards the counter is
`(c + 1) mod 2^32`. -/
theorem computeNextCookie_spec (ch : RemoteChannel) (hc : ch.nextCookie_ < 2 ^ 32) :
    (ch.cookieHalf_ = true → ch.computeNextCookie.1 = ch.nextCookie_ ||| 2 ^ 31) ∧
    (ch.cookieHalf_ = false → ch.computeNextCookie.1 = ch.nextCookie_ % 2 ^ 31) ∧
    (∀ i, ch.computeNextCookie.1.testBit i
        = if i = 31 then ch.cookieHalf_ else ch.nextCookie_.testBit i) ∧
    ch.computeNextCookie.2.nextCookie_ = (ch.nextCookie_ + 1) % 2 ^ 32 := by
  refine ⟨?_, ?_, ?_, rfl⟩
  · intro hh
    simp only [computeNextCookie, hh, if_true]
    exact cookie_set_eq _ hc
  · intro hh
    simp only [computeNextCookie, hh, Bool.false_eq_true, if_false]
    exact cookie_clear_eq _ hc
  · intro i
    cases hh : ch.cookieHalf_
    · simp only [computeNextCookie, hh, Bool.false_eq_true, if_false]
      rw [cookie_clear_testBit _ hc]
      by_cases h : i = 31 <;> simp [h]
    · simp only [computeNextCookie, hh, if_true]
      rw [cookie_set_eq _ hc, Nat.testBit_or, Nat.testBit_two_pow]
      by_cases h : i = 31
      · simp [h]
      · have h2 : ¬ (31 = i) := fun e => h e.symm
        simp [h, h2]

theorem computeNextCookie_spec_witness :
    (RemoteChannel.new false 64 32 3 true).nextCookie_ < 2 ^ 32 ∧
    (RemoteChannel.new false 64 32 3 true).computeNextCookie.1 = 2147483648 ∧
    (RemoteChannel.new false 64 32 3 true).computeNextCookie.2.nextCookie_ = 1 := by
  have h := computeNextCookie_spec (RemoteChannel.new false 64 32 3 true) (by decide)
  exact ⟨by decide, by decide, h.2.2.2⟩

/-- C7: for counters `a` and `b` below `2^31`, the cookie issued by a channel of half `true`
with counter `a` differs from the cookie issued by a channel of half `false` with counter
`b`. -/
theorem cookie_halves_disjoint (cha chb : RemoteChannel)
    (ha : cha.nextCookie_ < 2 ^ 31) (hb : chb.nextCookie_ < 2 ^ 31)
    (hta : cha.cookieHalf_ = true) (htb : chb.cookieHalf_ = false) :
    cha.computeNextCookie.1 ≠ chb.computeNextCookie.1 := by
  rw [cookie_value cha ha, cookie_value chb hb, hta, htb]
  simp only [halfBase, if_true, Bool.false_eq_true, if_false]
  omega

theorem cookie_halves_disjoint_witness :
    (RemoteChannel.new false 64 32 3 true).computeNextCookie.1
      ≠ (RemoteChannel.new false 64 32 4 false).computeNextCookie.1 :=
  cookie_halves_disjoint (RemoteChannel.new false 64 32 3 true)
    (RemoteChannel.new false 64 32 4 false) (by decide) (by decide) rfl rfl

/-- C8: on a channel of either half whose counter `c` satisfies `c + 1 < 2^31`, two
successive `computeNextCookie` calls return `x` then `y` with `x < y`; and the cookies of
any run of `n` calls that keeps the counter below `2^31` are strictly increasing, hence
pairwise distinct. -/
theorem cookies_increasing (ch : RemoteChannel) :
    (ch.nextCookie_ + 1 < 2 ^ 31 →
      ch.computeNextCookie.1 < ch.computeNextCookie.2.computeNextCookie.1) ∧
    (∀ n, ch.nextCookie_ + n ≤ 2 ^ 31 →
      (cookies n ch).Pairwise (· < ·) ∧ (cookies n ch).Nodup) := by
  constructor
  · intro hc
    have h := cookies_pairwise 2 ch (by omega)
    simp only [cookies, List.pairwise_cons, List.mem_cons, List.mem_singleton] at h
    exact h.1 _ (Or.inl rfl)
  · intro n hn
    have h := cookies_pairwise n ch hn
    exact ⟨h, h.imp (fun hlt => Nat.ne_of_lt hlt)⟩

theorem cookies_increasing_witness :
    cookies 3 (RemoteChannel.new false 64 32 3 true) = [2147483648, 2147483649, 2147483650] ∧
    (cookies 3 (RemoteChannel.new false 64 32 3 true)).Pairwise (· < ·) ∧
    (RemoteChannel.new false 64 32 3 true).computeNextCookie.1
      < (RemoteChannel.new false 64 32 3 true).computeNextCookie.2.computeNextCookie.1 :=
  ⟨by decide,
   ((cookies_increasing (RemoteChannel.new false 64 32 3 true)).2 3 (by decide)).1,
   (cookies_increasing (RemoteChannel.new false 64 32 3 true)).1 (by decide)⟩

/-! ## close (C9) -/

/-- C9: `close` is idempotent and releases the socket exactly once: `close` after `close`
yields the same state, hence the same sequence of OS close calls, as one `close`; the handle
is `-1` afterwards; one `::close` of the handle is issued on an open channel and none on a
closed one, where `close` changes nothing; this includes a channel that a fatal failure of
`::read` has closed. -/
theorem close_idempotent (ch : RemoteChannel) :
    ch.close.close = ch.close ∧
    ch.close.socket_ = -1 ∧
    ch.close.osCloses = (if ch.socket_ = -1 then ch.osCloses else ch.osCloses ++ [ch.socket_]) ∧
    (ch.socket_ = -1 → ch.close = ch) ∧
    (∀ handler errno, errno ≠ EAGAIN → errno ≠ EINTR →
      (onRead handler ch (.error errno)).socket_ = -1 ∧
      (onRead handler ch (.error errno)).close = onRead handler ch (.error errno)) := by
  have hfatal : ∀ handler errno, errno ≠ EAGAIN → errno ≠ EINTR →
      onRead handler ch (.error errno) = ch.close := by
    intro handler errno h1 h2
    by_cases hfd : ch.socket_ < 0
    · simp [onRead, sysRead, hfd, EBADF, EWOULDBLOCK, EAGAIN, EINTR]
    · simp only [EAGAIN, EINTR] at h1 h2
      simp [onRead, sysRead, hfd, EWOULDBLOCK, EAGAIN, EINTR, h1, h2]
  have hidem : ch.close.close = ch.close := by
    by_cases h : ch.socket_ = -1 <;> simp [close, h]
  refine ⟨hidem, close_socket ch, ?_, fun h => close_closed ch h, ?_⟩
  · by_cases h : ch.socket_ = -1 <;> simp [close, h]
  · intro handler errno h1 h2
    rw [hfatal handler errno h1 h2]
    exact ⟨close_socket ch, hidem⟩

theorem close_idempotent_witness :
    (RemoteChannel.new false 64 32 3 true).close.close.osCloses = [3] ∧
    (RemoteChannel.new false 64 32 3 true).close.socket_ = -1 ∧
    (RemoteChannel.new false 64 32 3 true).close.close
      = (RemoteChannel.new false 64 32 3 true).close :=
  ⟨by decide, (close_idempotent (RemoteChannel.new false 64 32 3 true)).2.1,
   (close_idempotent (RemoteChannel.new false 64 32 3 true)).1⟩

/-! ## sendMessageSync (C11) -/

/-- C11 (evaluation of the code): `sendMessageSync(msg, handler)` returns `true` for every
message and handler and leaves the whole channel state as it was: nothing is appended to the
output queue and nothing is written to the socket. On the open channel with the message of
the scenario the queue is still empty and no byte has been sent after the call. -/
theorem sendMessageSync_stub (ch : RemoteChannel) (msg : Message) (handler : MessageHandler) :
    (ch.sendMessageSync msg handler).1 = true ∧
    (ch.sendMessageSync msg handler).2 = ch ∧
    (ch.sendMessageSync msg handler).2.queued = ch.queued ∧
    (ch.sendMessageSync msg handler).2.sent = ch.sent ∧
    ((openChannel true).sendMessageSync helloMsg (fun _ c => c)).2.queued = [] ∧
    ((openChannel true).sendMessageSync helloMsg (fun _ c => c)).2.sent = [] ∧
    (openChannel true).socket_ = 3 ∧ frame helloMsg ≠ [] :=
  ⟨rfl, rfl, rfl, rfl, by decide, by decide, by decide, by decide⟩

/-! ## Transient failure of `::read` (C13) -/

/-- C13: when the `::read` of `onRead` fails with `EWOULDBLOCK`, `EAGAIN` or `EINTR`, `onRead`
returns with the whole channel state unchanged: input buffer with both cursors, output queue,
socket handle and cookie counter are as before, no message is dispatched, the buffer is not
compacted and no `modifyFd` request is made. -/
theorem onRead_transient (handler : MessageHandler) (ch : RemoteChannel) (errno : Nat)
    (hopen : 0 ≤ ch.socket_)
    (herr : errno = EWOULDBLOCK ∨ errno = EAGAIN ∨ errno = EINTR) :
    onRead handler ch (.error errno) = ch := by
  have hfd : ¬ ch.socket_ < 0 := by omega
  simp [onRead, sysRead, hfd, herr]

theorem onRead_transient_witness :
    onRead closingHandler (queued17 false) (.error EINTR) = queued17 false ∧
    onRead closingHandler (queued17 false) (.error EAGAIN) = queued17 false :=
  ⟨onRead_transient closingHandler (queued17 false) EINTR (by decide) (Or.inr (Or.inr rfl)),
   onRead_transient closingHandler (queued17 false) EAGAIN (by decide) (Or.inr (Or.inl rfl))⟩

/-! ## write (C14) -/

/-- C14: for every byte string `data` of length `size`, also one longer than an output
buffer, `write(data, size)` returns: its loop exits with `size = 0`, so the assertion of line
40 holds in a build without `NDEBUG` too, and the unread bytes of the output queue, front to
back, are those before the call followed by the `size` bytes of `data`; nothing but the
queue has changed. -/
theorem write_appends (ch : RemoteChannel) (data : List Byte) (size : Nat)
    (hcap : 0 < ch.writeCapacity) (hq : QueueWF ch) (hlen : data.length = size) :
    ∃ c, writeLoop size ch data size = .ok (c, 0) ∧
      ch.write data size = .ok c ∧
      c.queued = ch.queued ++ data ∧
      c = { ch with outputBuffers_ := c.outputBuffers_ } := by
  obtain ⟨c, hloop, hqd, _, hsame⟩ :=
    writeLoop_spec size ch data size hcap hq (by omega) le_rfl
  refine ⟨c, hloop, ?_, ?_, hsame⟩
  · simp [write, hloop, cAssert]
  · rw [hqd, ← hlen, List.take_length]

theorem write_appends_witness :
    ∃ c, (queued17 false).write bytes40 40 = .ok c ∧ c.queued = bytes17 ++ bytes40 ∧
      c.outputBuffers_.length = 2 := by
  obtain ⟨c, _, hw, hq, _⟩ := write_appends (queued17 false) bytes40 40 (by decide)
    (by intro b hb; simp [queued17] at hb; subst hb; decide) (by decide)
  refine ⟨c, hw, by rw [hq]; decide, ?_⟩
  have h2 : ((queued17 false).write bytes40 40).map (fun c => c.outputBuffers_.length)
      = .ok 2 := by decide
  rw [hw] at h2
  simpa [Except.map] using h2

/-! ## The assertion of line 76 (C17) -/

/-- C17 (evaluation at the failing input): 17 bytes are queued in the front buffer (read
cursor 0, write cursor 17) and the socket accepts 10 of the 17 bytes offered. `wrote(10)`
leaves the read cursor at 0 and moves the write cursor to 27, so `readAvail()` is 27 while
the loop's `avail` is 7, and without `NDEBUG` the assertion of line 76 aborts `onWrite`;
the same happens when the socket accepts all 17 bytes (`avail` 0, `readAvail()` 34) or a
single byte. -/
theorem onWrite_assertion_fails :
    (queued17 false).front.readCursor = 0 ∧ (queued17 false).front.writeCursor = 17 ∧
    ((queued17 false).front.wrote 10).readCursor = 0 ∧
    ((queued17 false).front.wrote 10).writeCursor = 27 ∧
    ((queued17 false).front.wrote 10).readAvail = 27 ∧
    (queued17 false).front.readAvail - 10 = 7 ∧
    onWriteInner [.accept 10] (queued17 false) 17 = .error (.assertion 76) ∧
    (queued17 false).onWrite [.accept 10] = .error (.assertion 76) ∧
    (queued17 false).onWrite [.accept 17] = .error (.assertion 76) ∧
    (queued17 false).onWrite [.accept 1, .error EAGAIN] = .error (.assertion 76) := by
  refine ⟨by decide, by decide, by decide, by decide, by decide, by decide, by decide,
    by decide, by decide, by decide⟩

/-! ## End of stream (C20) -/

theorem poke_nil_wrote_zero (b : Buffer) : (b.poke []).wrote 0 = b := by
  cases b
  simp [Buffer.poke, Buffer.wrote]

theorem parseInput_incomplete (handler : MessageHandler) (ch : RemoteChannel)
    (hwf : ch.inputBuffer_.WF) (hinc : Complete ch.inputBuffer_.readData = false) :
    parseInput handler ch = ch := by
  apply parseLoop_stop
  have hlen := Buffer.readData_length _ hwf
  simp only [Complete, Bool.and_eq_false_iff, decide_eq_false_iff_not, Nat.not_le] at hinc
  rw [← hlen]
  exact hinc

/-- C20: when the `::read` of `onRead` returns 0 bytes, the write cursor advances by 0 and
the buffer content is untouched, so `onRead` does what the parse loop and the compaction do
on the bytes that were already there; when these hold no complete frame, no message is
dispatched, the channel is not closed (socket handle unchanged), nothing but the input buffer
changes, and the unread bytes are preserved, moved to offset 0. -/
theorem onRead_end_of_stream (handler : MessageHandler) (ch : RemoteChannel)
    (hopen : 0 ≤ ch.socket_) :
    (ch.inputBuffer_.poke []).wrote 0 = ch.inputBuffer_ ∧
    onRead handler ch (.data [])
      = { parseInput handler ch with
          inputBuffer_ := (parseInput handler ch).inputBuffer_.rewind } ∧
    (ch.inputBuffer_.WF → Complete ch.inputBuffer_.readData = false →
      onRead handler ch (.data []) = { ch with inputBuffer_ := ch.inputBuffer_.rewind } ∧
      (onRead handler ch (.data [])).socket_ = ch.socket_ ∧
      (onRead handler ch (.data [])).handled = ch.handled ∧
      (onRead handler ch (.data [])).osCloses = ch.osCloses ∧
      (onRead handler ch (.data [])).inputBuffer_.readData = ch.inputBuffer_.readData ∧
      (onRead handler ch (.data [])).inputBuffer_.readCursor = 0) := by
  have hfd : ¬ ch.socket_ < 0 := by omega
  have hstep : onRead handler ch (.data [])
      = { parseInput handler ch with
          inputBuffer_ := (parseInput handler ch).inputBuffer_.rewind } := by
    simp only [onRead, sysRead, hfd, if_false, List.take_nil, List.length_nil,
      poke_nil_wrote_zero]
  refine ⟨poke_nil_wrote_zero _, hstep, ?_⟩
  intro hwf hinc
  rw [hstep, parseInput_incomplete handler ch hwf hinc]
  exact ⟨rfl, rfl, rfl, rfl, (Buffer.rewind_readData _ hwf).1, rfl⟩

theorem onRead_end_of_stream_witness :
    (onRead closingHandler (onRead closingHandler (openChannel false)
        (.data ((frame helloMsg).take 5))) (.data [])).socket_ = 3 ∧
    (onRead closingHandler (onRead closingHandler (openChannel false)
        (.data ((frame helloMsg).take 5))) (.data [])).handled = [] ∧
    (onRead closingHandler (onRead closingHandler (openChannel false)
        (.data ((frame helloMsg).take 5))) (.data [])).inputBuffer_.readData = [1, 0, 0, 0, 0] := by
  have h := (onRead_end_of_stream closingHandler
    (onRead closingHandler (openChannel false) (.data ((frame helloMsg).take 5)))
    (by decide)).2.2 (by decide) (by decide)
  exact ⟨h.2.1.trans (by decide), h.2.2.1.trans (by decide), h.2.2.2.2.1.trans (by decide)⟩

/-! ## close and the buffers (C15) -/

/-- On a closed channel `onWrite` sends nothing. -/
theorem onWrite_closed_sent (ch : RemoteChannel) (hclosed : ch.socket_ = -1)
    (outs : List WriteOutcome) (c : RemoteChannel) (h : ch.onWrite outs = .ok c) :
    c.sent = ch.sent := by
  rw [onWriteLoop_closed _ ch outs c hclosed h]

/-- C15 (counterexample to the claim as stated): an open channel with 17 bytes queued and 5
unread bytes of an incomplete frame in its input buffer still holds the 17 unsent bytes in
its output queue and the 5 undispatched bytes in its input buffer after `close()`. -/
theorem close_discards_counterexample :
    (onRead closingHandler (queued17 true) (.data ((frame helloMsg).take 5))).socket_ = 3 ∧
    (onRead closingHandler (queued17 true) (.data ((frame helloMsg).take 5))).close.socket_
      = -1 ∧
    (onRead closingHandler (queued17 true) (.data ((frame helloMsg).take 5))).close.queued
      = bytes17 ∧
    (onRead closingHandler (queued17 true)
      (.data ((frame helloMsg).take 5))).close.inputBuffer_.readData = [1, 0, 0, 0, 0] ∧
    (onRead closingHandler (queued17 true) (.data ((frame helloMsg).take 5))).close.queued
      ≠ [] ∧
    (onRead closingHandler (queued17 true)
      (.data ((frame helloMsg).take 5))).close.inputBuffer_.readData ≠ [] := by
  refine ⟨by decide, by decide, by decide, by decide, by decide, by decide⟩

/-! ## Steps of the inner loop of `onWrite` -/

theorem onWriteInner_accept (o : WriteOutcome) (outs : List WriteOutcome) (ch : RemoteChannel)
    (n nbytes : Nat) (hsys : sysWrite ch.socket_ (n + 1) o = .ok nbytes) :
    onWriteInner (o :: outs) ch (n + 1)
      = match cAssert ch.ndebug 76 (n + 1 - nbytes == (ch.afterAccept nbytes).front.readAvail) with
        | .error f => .error f
        | .ok _ => onWriteInner outs (ch.afterAccept nbytes) (n + 1 - nbytes) := by
  rw [onWriteInner]
  simp only [hsys]
  rfl

theorem onWriteInner_error (o : WriteOutcome) (outs : List WriteOutcome) (ch : RemoteChannel)
    (n errno : Nat) (hsys : sysWrite ch.socket_ (n + 1) o = .error errno) :
    onWriteInner (o :: outs) ch (n + 1)
      = if errno = EWOULDBLOCK ∨ errno = EAGAIN ∨ errno = EINTR then
          .ok (.returned (ch.modifyFd (CLAP_FD_READ ||| CLAP_FD_WRITE)))
        else .ok (.returned ch.close) := by
  rw [onWriteInner]
  simp only [hsys]

theorem afterAccept_frame (ch : RemoteChannel) (nbytes : Nat) :
    ch.afterAccept nbytes
      = { ch with outputBuffers_ := (ch.afterAccept nbytes).outputBuffers_,
                  sent := (ch.afterAccept nbytes).sent } := rfl

theorem afterAccept_queue (ch : RemoteChannel) (nbytes : Nat) :
    (ch.afterAccept nbytes).outputBuffers_ = ch.front.wrote nbytes :: ch.outputBuffers_.tail :=
  rfl

/-! ## Fatal I/O failure (C12) -/

/-- While the inner loop of `onWrite` runs on, it touches nothing but the front buffer and
the trace of sent bytes. -/
theorem onWriteInner_drained_frame : ∀ (outs : List WriteOutcome) (ch : RemoteChannel)
    (avail : Nat) (c : RemoteChannel) (outs1 : List WriteOutcome),
    onWriteInner outs ch avail = .ok (.drained c outs1) →
    c = { ch with outputBuffers_ := c.outputBuffers_, sent := c.sent } := by
  intro outs
  induction outs with
  | nil =>
    intro ch avail c outs1 h
    cases avail with
    | zero => simp only [onWriteInner] at h; cases h; rfl
    | succ n => simp [onWriteInner] at h
  | cons o outs ih =>
    intro ch avail c outs1 h
    cases avail with
    | zero => simp only [onWriteInner] at h; cases h; rfl
    | succ n =>
      cases hsys : sysWrite ch.socket_ (n + 1) o with
      | error e =>
        rw [onWriteInner_error _ _ _ _ _ hsys] at h
        split at h <;> cases h
      | ok nbytes =>
        rw [onWriteInner_accept _ _ _ _ _ hsys] at h
        cases hassert : cAssert ch.ndebug 76
            (n + 1 - nbytes == (ch.afterAccept nbytes).front.readAvail) with
        | error f => rw [hassert] at h; cases h
        | ok u =>
          rw [hassert] at h
          rw [ih _ _ c outs1 h]
          rfl

/-- More scripted outcomes do not change an inner loop that ran to its end. -/
theorem onWriteInner_drained_append : ∀ (outs : List WriteOutcome) (ch : RemoteChannel)
    (avail : Nat) (c : RemoteChannel) (outs1 more : List WriteOutcome),
    onWriteInner outs ch avail = .ok (.drained c outs1) →
    onWriteInner (outs ++ more) ch avail = .ok (.drained c (outs1 ++ more)) := by
  intro outs
  induction outs with
  | nil =>
    intro ch avail c outs1 more h
    cases avail with
    | zero =>
      simp only [onWriteInner] at h
      cases h
      cases more <;> simp [onWriteInner]
    | succ n => simp [onWriteInner] at h
  | cons o outs ih =>
    intro ch avail c outs1 more h
    cases avail with
    | zero =>
      simp only [onWriteInner] at h
      cases h
      simp [onWriteInner]
    | succ n =>
      rw [List.cons_append]
      cases hsys : sysWrite ch.socket_ (n + 1) o with
      | error e =>
        rw [onWriteInner_error _ _ _ _ _ hsys] at h
        split at h <;> cases h
      | ok nbytes =>
        rw [onWriteInner_accept _ _ _ _ _ hsys] at h ⊢
        cases hassert : cAssert ch.ndebug 76
            (n + 1 - nbytes == (ch.afterAccept nbytes).front.readAvail) with
        | error f => rw [hassert] at h; cases h
        | ok u =>
          rw [hassert] at h
          exact ih _ _ c outs1 more h

/-- When the script ends where the inner loop makes its next `::write`, a fatal failure of
that `::write` makes `onWrite` close the channel and return. -/
theorem onWriteInner_fatal (errno : Nat)
    (hfatal : errno ≠ EWOULDBLOCK ∧ errno ≠ EAGAIN ∧ errno ≠ EINTR) :
    ∀ (outs : List WriteOutcome) (ch : RemoteChannel) (avail : Nat), 0 ≤ ch.socket_ →
    onWriteInner outs ch avail = .error .unscripted →
    ∃ c, (∀ rest, onWriteInner (outs ++ .error errno :: rest) ch avail = .ok (.returned c)) ∧
      c.socket_ = -1 ∧ c.osCloses = ch.osCloses ++ [ch.socket_] ∧
      c.evControl_ = ch.evControl_ ∧ c.handled = ch.handled ∧
      c.inputBuffer_ = ch.inputBuffer_ := by
  intro outs
  induction outs with
  | nil =>
    intro ch avail hopen h
    have hfd : ¬ ch.socket_ < 0 := by omega
    have hne : ch.socket_ ≠ -1 := by omega
    cases avail with
    | zero => simp [onWriteInner] at h
    | succ n =>
      refine ⟨ch.close, ?_, close_socket ch, ?_, ?_, ?_, ?_⟩
      · intro rest
        simp [onWriteInner, sysWrite, hfd, hfatal.1, hfatal.2.1, hfatal.2.2]
      all_goals simp [close, hne]
  | cons o outs ih =>
    intro ch avail hopen h
    cases avail with
    | zero => simp [onWriteInner] at h
    | succ n =>
      cases hsys : sysWrite ch.socket_ (n + 1) o with
      | error e =>
        rw [onWriteInner_error _ _ _ _ _ hsys] at h
        split at h <;> cases h
      | ok nbytes =>
        rw [onWriteInner_accept _ _ _ _ _ hsys] at h
        cases hassert : cAssert ch.ndebug 76
            (n + 1 - nbytes == (ch.afterAccept nbytes).front.readAvail) with
        | error f =>
          rw [hassert] at h
          cases h
          simp only [cAssert] at hassert
          split at hassert <;> cases hassert
        | ok u =>
          rw [hassert] at h
          obtain ⟨c, hc, h1, h2, h3, h4, h5⟩ := ih (ch.afterAccept nbytes) _ hopen h
          refine ⟨c, ?_, h1, h2, h3, h4, h5⟩
          intro rest
          rw [List.cons_append, onWriteInner_accept _ _ _ _ _ hsys, hassert]
          exact hc rest

/-- When the script ends where `onWrite` makes its next `::write`, a fatal failure of that
`::write` makes `onWrite` close the channel and return, whatever the script holds after
it. -/
theorem onWriteLoop_fatal (errno : Nat)
    (hfatal : errno ≠ EWOULDBLOCK ∧ errno ≠ EAGAIN ∧ errno ≠ EINTR) :
    ∀ (fuel : Nat) (ch : RemoteChannel) (outs : List WriteOutcome), 0 ≤ ch.socket_ →
    onWriteLoop fuel ch outs = .error .unscripted →
    ∃ c, (∀ rest, onWriteLoop fuel ch (outs ++ .error errno :: rest) = .ok c) ∧
      c.socket_ = -1 ∧ c.osCloses = ch.osCloses ++ [ch.socket_] ∧
      c.evControl_ = ch.evControl_ ∧ c.handled = ch.handled ∧
      c.inputBuffer_ = ch.inputBuffer_ := by
  intro fuel
  induction fuel with
  | zero => intro ch outs _ h; simp [onWriteLoop] at h
  | succ fuel ih =>
    intro ch outs hopen h
    simp only [onWriteLoop] at h ⊢
    split at h
    · cases h
    · rename_i hempty
      simp only [hempty]
      split at h
      · rename_i f hinner
        cases h
        obtain ⟨c, hc, hrest⟩ := onWriteInner_fatal errno hfatal _ _ _ hopen hinner
        refine ⟨c, ?_, hrest⟩
        intro rest
        simp [hc rest]
      · cases h
      · rename_i c1 outs1 hinner
        have hframe := onWriteInner_drained_frame _ _ _ _ _ hinner
        have hsock : c1.pop.socket_ = ch.socket_ := by rw [hframe]; rfl
        obtain ⟨c, hc, h1, h2, h3, h4, h5⟩ := ih c1.pop outs1 (by rw [hsock]; exact hopen) h
        refine ⟨c, ?_, h1, ?_, ?_, ?_, ?_⟩
        · intro rest
          simp [onWriteInner_drained_append _ _ _ _ _ (.error errno :: rest) hinner, hc rest]
        · rw [h2, hframe]; rfl
        · rw [h3, hframe]; rfl
        · rw [h4, hframe]; rfl
        · rw [h5, hframe]; rfl

/-- C12: a fatal I/O failure closes the channel. When the `::read` of `onRead` fails with an
`errno` other than `EWOULDBLOCK`, `EAGAIN` and `EINTR`, `onRead` is `close()`: the handle is
released once and set to `-1`, no handler is invoked, no `modifyFd` request is made. When a
`::write` of `onWrite` fails so (the script `pre` of earlier outcomes ends exactly where
`onWrite` makes its next `::write`), `onWrite` returns with the handle released once and set
to `-1`, without a further `::write` (what the script holds after the failure plays no
role), without invoking the handler and without a `modifyFd` request. -/
theorem fatal_io_closes (ch : RemoteChannel) (errno : Nat) (hopen : 0 ≤ ch.socket_)
    (hfatal : errno ≠ EWOULDBLOCK ∧ errno ≠ EAGAIN ∧ errno ≠ EINTR) :
    (∀ handler, onRead handler ch (.error errno) = ch.close ∧
      ch.close.socket_ = -1 ∧ ch.close.osCloses = ch.osCloses ++ [ch.socket_] ∧
      ch.close.handled = ch.handled ∧ ch.close.evControl_ = ch.evControl_ ∧
      ch.close.inputBuffer_ = ch.inputBuffer_) ∧
    (∀ pre, ch.onWrite pre = .error .unscripted →
      ∃ c, (∀ rest, ch.onWrite (pre ++ .error errno :: rest) = .ok c) ∧
        c.socket_ = -1 ∧ c.osCloses = ch.osCloses ++ [ch.socket_] ∧
        c.evControl_ = ch.evControl_ ∧ c.handled = ch.handled ∧
        c.inputBuffer_ = ch.inputBuffer_) := by
  have hfd : ¬ ch.socket_ < 0 := by omega
  have hne : ch.socket_ ≠ -1 := by omega
  constructor
  · intro handler
    refine ⟨?_, close_socket ch, ?_, ?_, ?_, ?_⟩
    · simp [onRead, sysRead, hfd, hfatal.1, hfatal.2.1, hfatal.2.2]
    all_goals simp [close, hne]
  · intro pre h
    exact onWriteLoop_fatal errno hfatal _ ch pre hopen h

theorem fatal_io_closes_witness :
    onRead closingHandler (queued17 true) (.error EPIPE) = (queued17 true).close ∧
    (queued17 true).onWrite [.accept 10] = .error .unscripted ∧
    (∃ c, (∀ rest, (queued17 true).onWrite ([.accept 10] ++ .error EPIPE :: rest) = .ok c) ∧
      c.socket_ = -1 ∧ c.osCloses = [3] ∧ c.evControl_ = [] ∧ c.handled = []) := by
  have h := fatal_io_closes (queued17 true) EPIPE (by decide) (by decide)
  refine ⟨(h.1 closingHandler).1, by decide, ?_⟩
  obtain ⟨c, hc, h1, h2, h3, h4, _⟩ := h.2 [.accept 10] (by decide)
  exact ⟨c, hc, h1, h2.trans (by decide), h3.trans (by decide), h4.trans (by decide)⟩

/-! ## The number of queued buffers (C18) -/

theorem buffer_write_cursors (b : Buffer) (data : List Byte) (size : Nat)
    (hb : b.writeCursor ≤ b.capacity) :
    (b.write data size).2 = min size b.writeAvail ∧
    (b.write data size).1.readCursor = b.readCursor ∧
    (b.write data size).1.writeCursor = b.writeCursor + min size b.writeAvail ∧
    (b.write data size).1.capacity = b.capacity := by
  refine ⟨rfl, rfl, rfl, ?_⟩
  have hav := Buffer.writeAvail_of_le b hb
  simp only [Buffer.write, Buffer.wrote, Buffer.poke, Buffer.capacity, hav,
    List.length_append, List.length_take, List.length_drop] at hb ⊢
  omega

theorem packed_nil (C : Nat) : Packed C [] := by
  constructor <;> intro b hb <;> simp at hb

theorem packed_queueWF (ch : RemoteChannel) (C : Nat) (h : Packed C ch.outputBuffers_) :
    QueueWF ch := by
  intro b hb
  obtain ⟨h1, h2, _, h4⟩ := h.1 b hb
  simp only [Buffer.WF, h1, h2]
  omega

theorem writtenBytes_append (q : List Buffer) (b : Buffer) :
    writtenBytes (q ++ [b]) = writtenBytes q + b.writeCursor := by
  simp [writtenBytes]

theorem writtenBytes_full (C : Nat) (q : List Buffer) (h : ∀ b ∈ q, b.writeCursor = C) :
    writtenBytes q = q.length * C := by
  induction q with
  | nil => simp [writtenBytes]
  | cons a q ih =>
    have ha := h a (by simp)
    have := ih (fun b hb => h b (by simp [hb]))
    simp only [writtenBytes, List.map_cons, List.sum_cons, List.length_cons] at this ⊢
    rw [this, ha, Nat.succ_mul]
    omega

/-- A packed queue that holds `T` bytes has `ceil(T / C)` buffers. -/
theorem packed_length (C : Nat) (hC : 0 < C) (q : List Buffer) (h : Packed C q) :
    q.length = (writtenBytes q + C - 1) / C := by
  rcases List.eq_nil_or_concat q with hnil | ⟨init, last, hcons⟩
  · subst hnil
    simp only [writtenBytes, List.map_nil, List.sum_nil, List.length_nil, Nat.zero_add]
    exact (Nat.div_eq_of_lt (by omega)).symm
  · rw [List.concat_eq_append] at hcons
    subst hcons
    have hfull : ∀ b ∈ init, b.writeCursor = C := by
      intro b hb
      exact h.2 b (by simpa using hb)
    obtain ⟨_, _, hpos, hle⟩ := h.1 last (by simp)
    rw [writtenBytes_append, writtenBytes_full C init hfull, List.length_append,
      List.length_singleton]
    symm
    apply Nat.div_eq_of_lt_le
    · rw [Nat.succ_mul]; omega
    · rw [Nat.succ_mul, Nat.succ_mul]; omega

/-- One iteration of the loop of `write` on a packed queue: the bytes go to the last buffer
if it has room and to a new buffer otherwise, and the queue stays packed. -/
theorem write_step_packed (ch : RemoteChannel) (data : List Byte) (size : Nat) (C : Nat)
    (hC : 0 < C) (hcap : ch.writeCapacity = C) (hp : Packed C ch.outputBuffers_)
    (hsize : 0 < size) :
    Packed C (ch.nextWriteBuffer.setBack (ch.nextWriteBuffer.back.write data size).1).outputBuffers_ ∧
    writtenBytes (ch.nextWriteBuffer.setBack (ch.nextWriteBuffer.back.write data size).1).outputBuffers_
      = writtenBytes ch.outputBuffers_ + (ch.nextWriteBuffer.back.write data size).2 ∧
    (ch.nextWriteBuffer.back.write data size).2 ≤ size ∧
    (ch.nextWriteBuffer.setBack (ch.nextWriteBuffer.back.write data size).1).writeCapacity = C := by
  have hcap2 : (ch.nextWriteBuffer.setBack
      (ch.nextWriteBuffer.back.write data size).1).writeCapacity = C := by
    rw [← hcap]
    simp only [setBack]
    rw [nextWriteBuffer_frame ch]
  -- the three shapes of the queue after `nextWriteBuffer`
  have key : ∃ init b, ch.nextWriteBuffer.outputBuffers_ = init ++ [b] ∧
      ch.nextWriteBuffer.back = b ∧ (∀ x ∈ init, x ∈ ch.outputBuffers_ ∧ x.writeCursor = C) ∧
      b.capacity = C ∧ b.readCursor = 0 ∧ b.writeCursor < C ∧
      writtenBytes init + b.writeCursor = writtenBytes ch.outputBuffers_ := by
    rcases List.eq_nil_or_concat ch.outputBuffers_ with hnil | ⟨init, last, hcons⟩
    · refine ⟨[], Buffer.fresh C, ?_⟩
      simp [nextWriteBuffer, hnil, emplace, back, hcap, Buffer.fresh, Buffer.capacity,
        writtenBytes, hC]
    · rw [List.concat_eq_append] at hcons
      obtain ⟨l1, l2, l3, l4⟩ := hp.1 last (by rw [hcons]; simp)
      have hinit : ∀ x ∈ init, x ∈ ch.outputBuffers_ ∧ x.writeCursor = C := by
        intro x hx
        refine ⟨by rw [hcons]; simp [hx], hp.2 x ?_⟩
        rw [hcons]; simpa using hx
      have hlav : last.writeAvail = C - last.writeCursor := by
        rw [Buffer.writeAvail_of_le last (by rw [l1]; exact l4), l1]
      by_cases hav : last.writeAvail > 0
      · refine ⟨init, last, ?_⟩
        have hlt : last.writeCursor < C := by
          rw [hlav] at hav; omega
        simp [nextWriteBuffer, hcons, hav, back, l1, l2, hlt, writtenBytes_append]
        exact fun x hx => ⟨Or.inl hx, (hinit x hx).2⟩
      · refine ⟨init ++ [last], Buffer.fresh C, ?_⟩
        have hfull : last.writeCursor = C := by
          rw [hlav] at hav; omega
        simp [nextWriteBuffer, hcons, hav, emplace, back, hcap, Buffer.fresh, Buffer.capacity,
          writtenBytes_append, hC]
        intro x hx
        rcases hx with hx | hx
        · exact ⟨Or.inl hx, (hinit x hx).2⟩
        · rw [hx]; exact ⟨Or.inr rfl, hfull⟩
  obtain ⟨init, b, hq, hback, hinit, b1, b2, b3, hsum⟩ := key
  obtain ⟨w1, w2, w3, w4⟩ := buffer_write_cursors b data size (by rw [b1]; omega)
  have hav : b.writeAvail = C - b.writeCursor := by
    rw [Buffer.writeAvail_of_le b (by rw [b1]; omega), b1]
  have hq2 : (ch.nextWriteBuffer.setBack (ch.nextWriteBuffer.back.write data size).1).outputBuffers_
      = init ++ [(b.write data size).1] := by
    simp [setBack, hq, hback]
  rw [hq2, hback]
  refine ⟨⟨?_, ?_⟩, ?_, ?_, hcap2⟩
  · intro x hx
    simp only [List.mem_append, List.mem_singleton] at hx
    rcases hx with hx | hx
    · exact hp.1 x (hinit x hx).1
    · rw [hx, w2, w3, w4, hav]
      exact ⟨b1, b2, by omega, by omega⟩
  · intro x hx
    rw [List.dropLast_concat] at hx
    exact (hinit x hx).2
  · rw [writtenBytes_append, w3, w1, ← hsum]
    omega
  · rw [w1]; omega

/-- The loop of `write` keeps the queue packed and adds the bytes it took to it. -/
theorem writeLoop_packed (C : Nat) (hC : 0 < C) : ∀ (fuel : Nat) (ch : RemoteChannel)
    (data : List Byte) (size : Nat) (c : RemoteChannel) (s : Nat),
    ch.writeCapacity = C → Packed C ch.outputBuffers_ →
    writeLoop fuel ch data size = .ok (c, s) →
    Packed C c.outputBuffers_ ∧
    writtenBytes c.outputBuffers_ + s = writtenBytes ch.outputBuffers_ + size := by
  intro fuel
  induction fuel with
  | zero =>
    intro ch data size c s _ hp h
    simp only [writeLoop] at h
    split at h
    · cases h
    · cases h; exact ⟨hp, rfl⟩
  | succ fuel ih =>
    intro ch data size c s hcap hp h
    simp only [writeLoop] at h
    split at h
    · rename_i hpos
      obtain ⟨p1, p2, p3, p4⟩ := write_step_packed ch data size C hC hcap hp hpos
      obtain ⟨q1, q2⟩ := ih _ _ _ c s p4 p1 h
      exact ⟨q1, by rw [q2, p2]; omega⟩
    · cases h; exact ⟨hp, rfl⟩

/-- A sequence of `write` calls on a packed queue returns, keeps the queue packed and appends
the bytes of the calls in call order. -/
theorem runWrites_packed (C : Nat) (hC : 0 < C) : ∀ (ws : List (List Byte × Nat))
    (ch : RemoteChannel), ch.writeCapacity = C → Packed C ch.outputBuffers_ →
    (∀ w ∈ ws, w.2 ≤ w.1.length) →
    ∃ c, runWrites ch ws = .ok c ∧ Packed C c.outputBuffers_ ∧
      writtenBytes c.outputBuffers_ = writtenBytes ch.outputBuffers_ + (ws.map Prod.snd).sum ∧
      c.queued = ch.queued ++ (ws.map (fun w => w.1.take w.2)).flatten := by
  intro ws
  induction ws with
  | nil => intro ch _ hp _; exact ⟨ch, rfl, hp, by simp, by simp⟩
  | cons w ws ih =>
    intro ch hcap hp hws
    obtain ⟨data, size⟩ := w
    have hsz : size ≤ data.length := hws (data, size) (by simp)
    obtain ⟨c1, hloop, hqd, _, hsame⟩ := writeLoop_spec size ch data size
      (by rw [hcap]; exact hC) (packed_queueWF ch C hp) hsz le_rfl
    have hw : ch.write data size = .ok c1 := by simp [write, hloop, cAssert]
    obtain ⟨p1, p2⟩ := writeLoop_packed C hC size ch data size c1 0 hcap hp hloop
    have hcap1 : c1.writeCapacity = C := by rw [hsame]; exact hcap
    obtain ⟨c, hrun, q1, q2, q3⟩ := ih c1 hcap1 p1 (fun x hx => hws x (by simp [hx]))
    refine ⟨c, ?_, q1, ?_, ?_⟩
    · simp only [runWrites, hw]; exact hrun
    · rw [q2]
      simp only [List.map_cons, List.sum_cons]
      omega
    · rw [q3, hqd]
      simp

/-- C18: starting from an empty output queue, `write` calls that total `T` bytes return and
leave exactly `ceil(T / C)` buffers in the queue, where `C` is the capacity of one output
buffer; so two or more buffers when `T` exceeds `C`. Every buffer but the last is full (its
write cursor is at `C`, `writeAvail()` is 0), and the unread bytes of the queue, front to
back, are the bytes of the calls in call order. -/
theorem write_buffer_count (ch : RemoteChannel) (ws : List (List Byte × Nat))
    (hcap : 0 < ch.writeCapacity) (hempty : ch.outputBuffers_ = [])
    (hws : ∀ w ∈ ws, w.2 ≤ w.1.length) :
    ∃ c, runWrites ch ws = .ok c ∧
      c.outputBuffers_.length
        = ((ws.map Prod.snd).sum + ch.writeCapacity - 1) / ch.writeCapacity ∧
      (ch.writeCapacity < (ws.map Prod.snd).sum → 2 ≤ c.outputBuffers_.length) ∧
      (∀ b ∈ c.outputBuffers_.dropLast,
        b.writeCursor = ch.writeCapacity ∧ b.writeAvail = 0) ∧
      (∀ b ∈ c.outputBuffers_, b.capacity = ch.writeCapacity ∧ b.readCursor = 0) ∧
      c.queued = (ws.map (fun w => w.1.take w.2)).flatten := by
  obtain ⟨c, hrun, hp, hwr, hq⟩ := runWrites_packed ch.writeCapacity hcap ws ch rfl
    (by rw [hempty]; exact packed_nil _) hws
  have hlen := packed_length ch.writeCapacity hcap c.outputBuffers_ hp
  rw [hwr, hempty] at hlen
  simp only [writtenBytes, List.map_nil, List.sum_nil, Nat.zero_add] at hlen
  refine ⟨c, hrun, hlen, ?_, ?_, ?_, ?_⟩
  · intro hT
    rw [hlen, Nat.le_div_iff_mul_le hcap]
    omega
  · intro b hb
    have hfull := hp.2 b hb
    have hcapb := (hp.1 b (List.mem_of_mem_dropLast hb)).1
    exact ⟨hfull, by simp [Buffer.writeAvail, hcapb, hfull]⟩
  · intro b hb
    exact ⟨(hp.1 b hb).1, (hp.1 b hb).2.1⟩
  · rw [hq]
    simp [queued, hempty]

theorem write_buffer_count_witness :
    ∃ c, runWrites (openChannel false) [(bytes17, 17), (bytes40, 40)] = .ok c ∧
      c.outputBuffers_.length = 2 ∧
      (∀ b ∈ c.outputBuffers_.dropLast, b.writeCursor = 32 ∧ b.writeAvail = 0) ∧
      c.queued = bytes17 ++ bytes40 := by
  obtain ⟨c, h1, h2, _, h4, _, h6⟩ := write_buffer_count (openChannel false)
    [(bytes17, 17), (bytes40, 40)] (by decide) (by decide) (by decide)
  exact ⟨c, h1, h2.trans (by decide), h4, h6.trans (by decide)⟩

/-! ## The output-queue invariant (C16) -/

theorem sealed_nextWriteBuffer (ch : RemoteChannel) (h : Sealed ch.outputBuffers_) :
    Sealed ch.nextWriteBuffer.outputBuffers_ := by
  rcases List.eq_nil_or_concat ch.outputBuffers_ with hnil | ⟨init, last, hcons⟩
  · intro b hb
    simp [nextWriteBuffer, hnil, emplace] at hb
  · rw [List.concat_eq_append] at hcons
    by_cases hav : last.writeAvail > 0
    · have : ch.nextWriteBuffer = ch := by simp [nextWriteBuffer, hcons, hav]
      rw [this]; exact h
    · have hq : ch.nextWriteBuffer.outputBuffers_ = (init ++ [last]) ++ [Buffer.fresh ch.writeCapacity] := by
        simp [nextWriteBuffer, hcons, hav, emplace]
      intro b hb
      rw [hq, List.dropLast_concat] at hb
      simp only [List.mem_append, List.mem_singleton] at hb
      rcases hb with hb | hb
      · apply h b
        rw [hcons, List.dropLast_concat]; exact hb
      · rw [hb]; omega

theorem sealed_setBack (ch : RemoteChannel) (b : Buffer) (h : Sealed ch.outputBuffers_) :
    Sealed (ch.setBack b).outputBuffers_ := by
  intro x hx
  simp only [setBack, List.dropLast_concat] at hx
  exact h x hx

theorem writeLoop_sealed : ∀ (fuel : Nat) (ch : RemoteChannel) (data : List Byte) (size : Nat)
    (c : RemoteChannel) (s : Nat), Sealed ch.outputBuffers_ →
    writeLoop fuel ch data size = .ok (c, s) → Sealed c.outputBuffers_ := by
  intro fuel
  induction fuel with
  | zero =>
    intro ch data size c s hs h
    simp only [writeLoop] at h
    split at h
    · cases h
    · cases h; exact hs
  | succ fuel ih =>
    intro ch data size c s hs h
    simp only [writeLoop] at h
    split at h
    · exact ih _ _ _ c s (sealed_setBack _ _ (sealed_nextWriteBuffer ch hs)) h
    · cases h; exact hs

/-- `write` keeps the invariant of the output queue. -/
theorem write_sealed (ch : RemoteChannel) (data : List Byte) (size : Nat) (c : RemoteChannel)
    (hs : Sealed ch.outputBuffers_) (h : ch.write data size = .ok c) :
    Sealed c.outputBuffers_ := by
  simp only [write] at h
  split at h
  · cases h
  · rename_i c1 s hloop
    split at h
    · cases h
    · cases h
      exact writeLoop_sealed _ _ _ _ _ _ hs hloop

/-! ### The cursor invariant of the queued buffers in a build without `NDEBUG` -/

theorem buffer_write_WF (b : Buffer) (data : List Byte) (size : Nat) (h : b.WF) :
    (b.write data size).1.WF := by
  obtain ⟨_, w2, w3, w4⟩ := buffer_write_cursors b data size h.2
  have hav := Buffer.writeAvail_of_le b h.2
  obtain ⟨h1, h2⟩ := h
  simp only [Buffer.WF, w2, w3, w4, hav]
  omega

theorem back_WF (ch : RemoteChannel) (h : QueueWF ch) : ch.back.WF := by
  rcases List.eq_nil_or_concat ch.outputBuffers_ with hnil | ⟨init, last, hcons⟩
  · simp only [back, hnil, List.getLastD_nil]
    exact Buffer.fresh_WF 0
  · rw [List.concat_eq_append] at hcons
    have : ch.back = last := by simp [back, hcons]
    rw [this]
    exact h last (by rw [hcons]; simp)

theorem nextWriteBuffer_queueWF (ch : RemoteChannel) (h : QueueWF ch) :
    QueueWF ch.nextWriteBuffer := by
  have hem : QueueWF ch.emplace := by
    intro b hb
    simp only [emplace, List.mem_append, List.mem_singleton] at hb
    rcases hb with hb | hb
    · exact h b hb
    · rw [hb]; exact Buffer.fresh_WF _
  unfold nextWriteBuffer
  split
  · exact hem
  · split
    · exact h
    · exact hem

theorem setBack_queueWF (ch : RemoteChannel) (b : Buffer) (h : QueueWF ch) (hb : b.WF) :
    QueueWF (ch.setBack b) := by
  intro x hx
  simp only [setBack, List.mem_append, List.mem_singleton] at hx
  rcases hx with hx | hx
  · exact h x (List.mem_of_mem_dropLast hx)
  · rw [hx]; exact hb

theorem writeLoop_queueWF : ∀ (fuel : Nat) (ch : RemoteChannel) (data : List Byte)
    (size : Nat) (c : RemoteChannel) (s : Nat), QueueWF ch →
    writeLoop fuel ch data size = .ok (c, s) → QueueWF c := by
  intro fuel
  induction fuel with
  | zero =>
    intro ch data size c s hq h
    simp only [writeLoop] at h
    split at h
    · cases h
    · cases h; exact hq
  | succ fuel ih =>
    intro ch data size c s hq h
    simp only [writeLoop] at h
    split at h
    · have h1 := nextWriteBuffer_queueWF ch hq
      exact ih _ _ _ c s (setBack_queueWF _ _ h1 (buffer_write_WF _ _ _ (back_WF _ h1))) h
    · cases h; exact hq

/-- `write` keeps the cursor invariant of every queued buffer. -/
theorem write_queueWF (ch : RemoteChannel) (data : List Byte) (size : Nat) (c : RemoteChannel)
    (hq : QueueWF ch) (h : ch.write data size = .ok c) : QueueWF c := by
  simp only [write] at h
  split at h
  · cases h
  · rename_i c1 s hloop
    split at h
    · cases h
    · cases h
      exact writeLoop_queueWF _ _ _ _ _ _ hq hloop

theorem sysWrite_le (fd : Int) (avail : Nat) (o : WriteOutcome) (nbytes : Nat)
    (h : sysWrite fd avail o = .ok nbytes) : nbytes ≤ avail := by
  simp only [sysWrite] at h
  split at h
  · cases h
  · split at h
    · cases h
    · cases h; omega

/-- Without `NDEBUG` the assertion of line 76 lets the inner loop of `onWrite` go on only
after a `::write` that accepted no byte, so the loop leaves every buffer as it is. -/
theorem onWriteInner_debug : ∀ (outs : List WriteOutcome) (ch : RemoteChannel) (avail : Nat)
    (r : InnerExit), ch.ndebug = false → QueueWF ch → ch.outputBuffers_ ≠ [] →
    avail = ch.front.readAvail → onWriteInner outs ch avail = .ok r →
    (∀ c outs1, r = .drained c outs1 → c.outputBuffers_ = ch.outputBuffers_ ∧ c.ndebug = false) ∧
    (∀ c, r = .returned c → c.outputBuffers_ = ch.outputBuffers_ ∧ c.ndebug = false) := by
  intro outs
  induction outs with
  | nil =>
    intro ch avail r hnd _ _ _ h
    cases avail with
    | zero =>
      simp only [onWriteInner] at h
      cases h
      exact ⟨fun c outs1 e => (by cases e; exact ⟨rfl, hnd⟩), fun c e => (by cases e)⟩
    | succ n => simp [onWriteInner] at h
  | cons o outs ih =>
    intro ch avail r hnd hq hne hav h
    cases avail with
    | zero =>
      simp only [onWriteInner] at h
      cases h
      exact ⟨fun c outs1 e => (by cases e; exact ⟨rfl, hnd⟩), fun c e => (by cases e)⟩
    | succ n =>
      cases hsys : sysWrite ch.socket_ (n + 1) o with
      | error e =>
        rw [onWriteInner_error _ _ _ _ _ hsys] at h
        split at h
        · cases h
          exact ⟨fun c outs1 e => (by cases e), fun c e => (by cases e; exact ⟨rfl, hnd⟩)⟩
        · cases h
          refine ⟨fun c outs1 e => (by cases e), fun c e => ?_⟩
          cases e
          by_cases hc : ch.socket_ = -1 <;> simp [close, hc, hnd]
      | ok nbytes =>
        rw [onWriteInner_accept _ _ _ _ _ hsys] at h
        have hle := sysWrite_le _ _ _ _ hsys
        obtain ⟨a, t, hqa⟩ := List.exists_cons_of_ne_nil hne
        have hfront : ch.front = a := by simp [front, hqa]
        have hawf : a.WF := hq a (by rw [hqa]; simp)
        cases hassert : cAssert ch.ndebug 76
            (n + 1 - nbytes == (ch.afterAccept nbytes).front.readAvail) with
        | error f => rw [hassert] at h; cases h
        | ok u =>
          rw [hassert] at h
          have hzero : nbytes = 0 := by
            simp only [cAssert, hnd, Bool.false_or] at hassert
            split at hassert
            · rename_i hcond
              have hcond2 : n + 1 - nbytes = (ch.afterAccept nbytes).front.readAvail := by
                simpa using hcond
              have hf2 : (ch.afterAccept nbytes).front = a.wrote nbytes := by
                simp [front, afterAccept_queue, hqa]
              rw [hf2] at hcond2
              rw [hfront] at hav
              obtain ⟨w1, _⟩ := hawf
              simp only [Buffer.readAvail, Buffer.wrote] at hcond2 hav
              omega
            · cases hassert
          subst hzero
          have hsame : (ch.afterAccept 0).outputBuffers_ = ch.outputBuffers_ := by
            rw [afterAccept_queue, hfront, hqa]
            rfl
          have hq2 : QueueWF (ch.afterAccept 0) := by
            intro b hb
            rw [hsame] at hb
            exact hq b hb
          have hfr : (ch.afterAccept 0).front = ch.front := by
            simp only [front, hsame]
          obtain ⟨i1, i2⟩ := ih (ch.afterAccept 0) (n + 1 - 0) r hnd hq2
            (by rw [hsame]; exact hne) (by rw [hfr]; exact hav) h
          exact ⟨fun c outs1 e => (by rw [← hsame]; exact i1 c outs1 e),
            fun c e => (by rw [← hsame]; exact i2 c e)⟩

theorem pop_queueWF (ch : RemoteChannel) (h : QueueWF ch) : QueueWF ch.pop := by
  intro b hb
  exact h b (List.mem_of_mem_tail hb)

/-- Without `NDEBUG`, an `onWrite` that returns has kept the cursor invariant of every
queued buffer. -/
theorem onWriteLoop_debug : ∀ (fuel : Nat) (ch : RemoteChannel) (outs : List WriteOutcome)
    (c : RemoteChannel), ch.ndebug = false → QueueWF ch → onWriteLoop fuel ch outs = .ok c →
    QueueWF c ∧ c.ndebug = false := by
  intro fuel
  induction fuel with
  | zero => intro ch outs c _ _ h; simp [onWriteLoop] at h
  | succ fuel ih =>
    intro ch outs c hnd hq h
    simp only [onWriteLoop] at h
    split at h
    · cases h; exact ⟨hq, hnd⟩
    · rename_i hempty
      have hne : ch.outputBuffers_ ≠ [] := by simpa using hempty
      split at h
      · cases h
      · rename_i c1 hinner
        cases h
        obtain ⟨e1, e2⟩ := (onWriteInner_debug _ _ _ _ hnd hq hne rfl hinner).2 c rfl
        exact ⟨fun b hb => hq b (by rw [← e1]; exact hb), e2⟩
      · rename_i c1 outs1 hinner
        obtain ⟨e1, e2⟩ := (onWriteInner_debug _ _ _ _ hnd hq hne rfl hinner).1 c1 outs1 rfl
        have hq1 : QueueWF c1 := fun b hb => hq b (by rw [← e1]; exact hb)
        exact ih c1.pop outs1 c e2 (pop_queueWF c1 hq1) h

theorem write_ndebug (ch : RemoteChannel) (data : List Byte) (size : Nat) (c : RemoteChannel)
    (h : ch.write data size = .ok c) : c.ndebug = ch.ndebug := by
  rw [write_frame ch data size c h]

theorem runCalls_debug : ∀ (calls : List Call) (ch c : RemoteChannel), ch.ndebug = false →
    QueueWF ch → runCalls ch calls = .ok c → QueueWF c := by
  intro calls
  induction calls with
  | nil => intro ch c _ hq h; simp only [runCalls] at h; cases h; exact hq
  | cons call calls ih =>
    intro ch c hnd hq h
    cases call with
    | write data size =>
      simp only [runCalls] at h
      split at h
      · cases h
      · rename_i c1 h1
        exact ih c1 c (by rw [write_ndebug _ _ _ _ h1]; exact hnd)
          (write_queueWF _ _ _ _ hq h1) h
    | sendMessageAsync msg outs =>
      simp only [runCalls] at h
      split at h
      · cases h
      · rename_i r hsend
        simp only [sendMessageAsync] at hsend
        split at hsend
        · cases hsend
        · rename_i c1 h1
          split at hsend
          · cases hsend
          · rename_i c2 h2
            split at hsend
            · cases hsend
            · rename_i c3 h3
              split at hsend
              · cases hsend
              · rename_i c4 h4
                split at hsend
                · cases hsend
                · rename_i c5 h5
                  cases hsend
                  have n1 : c1.ndebug = false := by rw [write_ndebug _ _ _ _ h1]; exact hnd
                  have n2 : c2.ndebug = false := by rw [write_ndebug _ _ _ _ h2]; exact n1
                  have n3 : c3.ndebug = false := by rw [write_ndebug _ _ _ _ h3]; exact n2
                  have n4 : c4.ndebug = false := by rw [write_ndebug _ _ _ _ h4]; exact n3
                  have q4 : QueueWF c4 := write_queueWF _ _ _ _ (write_queueWF _ _ _ _
                    (write_queueWF _ _ _ _ (write_queueWF _ _ _ _ hq h1) h2) h3) h4
                  obtain ⟨q5, n5⟩ := onWriteLoop_debug _ _ _ _ n4 q4 h5
                  exact ih c5 c n5 q5 h
    | onWrite outs =>
      simp only [runCalls] at h
      split at h
      · cases h
      · rename_i c1 h1
        obtain ⟨q1, n1⟩ := onWriteLoop_debug _ _ _ _ hnd hq h1
        exact ih c1 c n1 q1 h

/-- C16 (evaluation at the failing input): 40 bytes are written into 32-byte output buffers,
which gives a full front buffer and a tail that holds 8 bytes; the invariant holds, the front
buffer has `writeAvail() = 0`. Then `onWrite` runs, the socket accepts 10 bytes and reports
`EAGAIN`. With `NDEBUG` the `wrote(10)` of line 74 has moved the write cursor of the front
buffer, which is not the tail, from 32 to 42, beyond its capacity of 32: `capacity -
writeCursor` is -10, as a `size_t` `2^64 - 10`, and not 0. Without `NDEBUG` the assertion of
line 76 aborts the call. -/
theorem output_queue_seal_broken :
    (runCalls (openChannel true) [.write bytes40 40]).map
        (fun c => c.outputBuffers_.map (fun b => (b.capacity, b.writeCursor, b.writeAvail)))
      = .ok [(32, 32, 0), (32, 8, 24)] ∧
    (runCalls (openChannel true)
        [.write bytes40 40, .onWrite [.accept 10, .error EAGAIN]]).map
        (fun c => c.outputBuffers_.map (fun b => (b.capacity, b.writeCursor, b.writeAvail)))
      = .ok [(32, 42, 2 ^ 64 - 10), (32, 8, 24)] ∧
    (runCalls (openChannel true)
        [.write bytes40 40, .onWrite [.accept 10, .error EAGAIN]]).map
        (fun c => c.outputBuffers_.dropLast.map
          (fun b => decide (b.writeAvail = 0)))
      = .ok [false] ∧
    runCalls (openChannel false)
        [.write bytes40 40, .onWrite [.accept 10, .error EAGAIN]]
      = .error (.assertion 76) := by
  refine ⟨by decide, by decide, by decide, by decide⟩

/-! ## What `onWrite` and `sendMessageAsync` leave alone -/

theorem onWriteInner_returned_frame : ∀ (outs : List WriteOutcome) (ch : RemoteChannel)
    (avail : Nat) (c : RemoteChannel), onWriteInner outs ch avail = .ok (.returned c) →
    c.inputBuffer_ = ch.inputBuffer_ ∧ c.handled = ch.handled := by
  intro outs
  induction outs with
  | nil =>
    intro ch avail c h
    cases avail <;> simp [onWriteInner] at h
  | cons o outs ih =>
    intro ch avail c h
    cases avail with
    | zero => simp [onWriteInner] at h
    | succ n =>
      cases hsys : sysWrite ch.socket_ (n + 1) o with
      | error e =>
        rw [onWriteInner_error _ _ _ _ _ hsys] at h
        split at h
        · cases h; exact ⟨rfl, rfl⟩
        · cases h
          by_cases hc : ch.socket_ = -1 <;> simp [close, hc]
      | ok nbytes =>
        rw [onWriteInner_accept _ _ _ _ _ hsys] at h
        cases hassert : cAssert ch.ndebug 76
            (n + 1 - nbytes == (ch.afterAccept nbytes).front.readAvail) with
        | error f => rw [hassert] at h; cases h
        | ok u =>
          rw [hassert] at h
          obtain ⟨i1, i2⟩ := ih (ch.afterAccept nbytes) _ c h
          exact ⟨i1, i2⟩

/-- `onWrite` touches neither the input buffer nor the trace of handled messages. -/
theorem onWriteLoop_frame : ∀ (fuel : Nat) (ch : RemoteChannel) (outs : List WriteOutcome)
    (c : RemoteChannel), onWriteLoop fuel ch outs = .ok c →
    c.inputBuffer_ = ch.inputBuffer_ ∧ c.handled = ch.handled := by
  intro fuel
  induction fuel with
  | zero => intro ch outs c h; simp [onWriteLoop] at h
  | succ fuel ih =>
    intro ch outs c h
    simp only [onWriteLoop] at h
    split at h
    · cases h; exact ⟨rfl, rfl⟩
    · split at h
      · cases h
      · rename_i c1 hinner
        cases h
        exact onWriteInner_returned_frame _ _ _ _ hinner
      · rename_i c1 outs1 hinner
        have hframe := onWriteInner_drained_frame _ _ _ _ _ hinner
        obtain ⟨i1, i2⟩ := ih c1.pop outs1 c h
        exact ⟨by rw [i1, hframe]; rfl, by rw [i2, hframe]; rfl⟩

/-- What `sendMessageAsync` is made of: four `write` calls and one `onWrite`. -/
theorem sendMessageAsync_ok (ch : RemoteChannel) (msg : Message) (outs : List WriteOutcome)
    (r : Bool × RemoteChannel) (h : ch.sendMessageAsync msg outs = .ok r) :
    ∃ c1 c2 c3 c4, ch.write (u32Bytes msg.type) 4 = .ok c1 ∧
      c1.write (u32Bytes msg.cookie) 4 = .ok c2 ∧ c2.write (u32Bytes msg.size) 4 = .ok c3 ∧
      c3.write msg.data msg.size = .ok c4 ∧ c4.onWrite outs = .ok r.2 := by
  simp only [sendMessageAsync] at h
  split at h
  · cases h
  · rename_i c1 h1
    split at h
    · cases h
    · rename_i c2 h2
      split at h
      · cases h
      · rename_i c3 h3
        split at h
        · cases h
        · rename_i c4 h4
          split at h
          · cases h
          · rename_i c5 h5
            cases h
            exact ⟨c1, c2, c3, c4, h1, h2, h3, h4, h5⟩

/-- `sendMessageAsync` touches neither the input buffer nor the trace of handled messages. -/
theorem sendMessageAsync_frame (ch : RemoteChannel) (msg : Message) (outs : List WriteOutcome)
    (r : Bool × RemoteChannel) (h : ch.sendMessageAsync msg outs = .ok r) :
    r.2.inputBuffer_ = ch.inputBuffer_ ∧ r.2.handled = ch.handled := by
  obtain ⟨c1, c2, c3, c4, h1, h2, h3, h4, h5⟩ := sendMessageAsync_ok ch msg outs r h
  obtain ⟨i1, i2⟩ := onWriteLoop_frame _ _ _ _ h5
  have f1 := write_frame _ _ _ _ h1
  have f2 := write_frame _ _ _ _ h2
  have f3 := write_frame _ _ _ _ h3
  have f4 := write_frame _ _ _ _ h4
  constructor
  · rw [i1, f4, f3, f2, f1]
  · rw [i2, f4, f3, f2, f1]

theorem closingHandler_inputPassive : InputPassive closingHandler := by
  intro m c
  by_cases h : c.socket_ = -1 <;> simp [closingHandler, close, h]

theorem close_inputBuffer_handled (c : RemoteChannel) :
    c.close.inputBuffer_ = c.inputBuffer_ ∧ c.close.handled = c.handled := by
  by_cases h : c.socket_ = -1 <;> simp [close, h]

theorem replyThenClose_inputPassive : InputPassive replyThenClose := by
  intro m c
  simp only [replyThenClose]
  cases h : c.sendMessageAsync m [.accept (12 + m.size)] with
  | error f => exact close_inputBuffer_handled c
  | ok r =>
    obtain ⟨f1, f2⟩ := sendMessageAsync_frame c m _ r h
    obtain ⟨g1, g2⟩ := close_inputBuffer_handled r.2
    exact ⟨by rw [g1, f1], by rw [g2, f2]⟩

/-- The parse loop keeps the cursor invariant of the input buffer when the handler leaves
the input buffer alone. -/
theorem parseLoop_WF (handler : MessageHandler) (hpassive : InputPassive handler) :
    ∀ (fuel : Nat) (ch : RemoteChannel), ch.inputBuffer_.WF →
    (parseLoop handler fuel ch).inputBuffer_.WF := by
  intro fuel
  induction fuel with
  | zero => intro ch h; exact h
  | succ fuel ih =>
    intro ch h
    by_cases h1 : ch.inputBuffer_.readAvail < 12
    · rw [parseLoop_stop _ _ _ (Or.inl h1)]; exact h
    · by_cases h2 : ch.inputBuffer_.readAvail < 12 + u32At ch.inputBuffer_.readData 8
      · rw [parseLoop_stop _ _ _ (Or.inr h2)]; exact h
      · rw [parseLoop_step _ _ _ h1 h2]
        apply ih
        rw [(hpassive _ _).1]
        exact (Buffer.consumed_readData _ _ h (by omega)).2.1

/-! ## A handler that closes the channel (C19) -/

theorem onRead_eq_parsed_rewind (handler : MessageHandler) (ch : RemoteChannel)
    (chunk : List Byte) (hopen : 0 ≤ ch.socket_)
    (hfit : chunk.length ≤ ch.inputBuffer_.writeAvail) :
    onRead handler ch (.data chunk)
      = { ch.parsed handler chunk with
          inputBuffer_ := (ch.parsed handler chunk).inputBuffer_.rewind } := by
  have hfd : ¬ ch.socket_ < 0 := by omega
  simp only [onRead, sysRead, hfd, if_false, List.take_of_length_le hfit, parsed]

theorem parsed_WF (handler : MessageHandler) (hpassive : InputPassive handler)
    (ch : RemoteChannel) (chunk : List Byte) (hwf : ch.inputBuffer_.WF)
    (hfit : chunk.length ≤ ch.inputBuffer_.writeAvail) :
    (ch.parsed handler chunk).inputBuffer_.WF := by
  simp only [parsed, parseInput]
  apply parseLoop_WF handler hpassive
  exact (Buffer.poke_wrote ch.inputBuffer_ chunk hwf hfit).2.1

/-- C19 (as amended): let a read event deliver `chunk` to an open channel, let the handler
leave the input buffer alone, and let the channel be closed when `parseInput()` returns,
that is, let a handler invocation made from inside `onRead` have called `close()`, whatever
else the handler did. Then `onRead` still compacts the input buffer before it returns (line
30 does not test the socket): the bytes the parse loop left unread are preserved and moved
to offset 0, and the buffer is changed by this whenever the read cursor was not at 0.
The channel stays closed, and after `parseInput()` `onRead` dispatches nothing, issues no
`::close`, sends nothing and makes no `modifyFd` request. -/
theorem onRead_compacts_after_close (handler : MessageHandler)
    (hpassive : InputPassive handler) (ch : RemoteChannel) (chunk : List Byte)
    (hopen : 0 ≤ ch.socket_) (hwf : ch.inputBuffer_.WF)
    (hfit : chunk.length ≤ ch.inputBuffer_.writeAvail)
    (hclosed : (ch.parsed handler chunk).socket_ = -1) :
    onRead handler ch (.data chunk)
      = { ch.parsed handler chunk with
          inputBuffer_ := (ch.parsed handler chunk).inputBuffer_.rewind } ∧
    (onRead handler ch (.data chunk)).inputBuffer_.readData
      = (ch.parsed handler chunk).inputBuffer_.readData ∧
    (onRead handler ch (.data chunk)).inputBuffer_.readCursor = 0 ∧
    (onRead handler ch (.data chunk)).inputBuffer_.writeCursor
      = (ch.parsed handler chunk).inputBuffer_.readAvail ∧
    (0 < (ch.parsed handler chunk).inputBuffer_.readCursor →
      (onRead handler ch (.data chunk)).inputBuffer_
        ≠ (ch.parsed handler chunk).inputBuffer_) ∧
    (onRead handler ch (.data chunk)).socket_ = -1 ∧
    (onRead handler ch (.data chunk)).handled = (ch.parsed handler chunk).handled ∧
    (onRead handler ch (.data chunk)).osCloses = (ch.parsed handler chunk).osCloses ∧
    (onRead handler ch (.data chunk)).sent = (ch.parsed handler chunk).sent ∧
    (onRead handler ch (.data chunk)).evControl_ = (ch.parsed handler chunk).evControl_ ∧
    (onRead handler ch (.data chunk)).outputBuffers_
      = (ch.parsed handler chunk).outputBuffers_ := by
  have hstep := onRead_eq_parsed_rewind handler ch chunk hopen hfit
  have hpwf := parsed_WF handler hpassive ch chunk hwf hfit
  obtain ⟨w1, _, _, _, _⟩ := Buffer.rewind_readData _ hpwf
  rw [hstep]
  refine ⟨rfl, w1, rfl, rfl, ?_, hclosed, rfl, rfl, rfl, rfl, rfl⟩
  intro hpos heq
  have hc := congrArg Buffer.readCursor heq
  simp only [Buffer.rewind] at hc
  omega

theorem onRead_compacts_after_close_witness :
    ((openChannel true).parsed replyThenClose (frame helloMsg ++ [9, 8, 7])).socket_ = -1 ∧
    ((openChannel true).parsed replyThenClose (frame helloMsg ++ [9, 8, 7])).sent
      = frame helloMsg ∧
    ((openChannel true).parsed replyThenClose
      (frame helloMsg ++ [9, 8, 7])).inputBuffer_.readCursor = 17 ∧
    (onRead replyThenClose (openChannel true)
      (.data (frame helloMsg ++ [9, 8, 7]))).inputBuffer_.readData = [9, 8, 7] ∧
    (onRead replyThenClose (openChannel true)
      (.data (frame helloMsg ++ [9, 8, 7]))).inputBuffer_.readCursor = 0 ∧
    (onRead replyThenClose (openChannel true)
      (.data (frame helloMsg ++ [9, 8, 7]))).socket_ = -1 ∧
    (onRead closingHandler (openChannel true)
      (.data (frame helloMsg ++ [9, 8, 7]))).inputBuffer_.readCursor = 0 := by
  have h := onRead_compacts_after_close replyThenClose replyThenClose_inputPassive
    (openChannel true) (frame helloMsg ++ [9, 8, 7]) (by decide) (by decide) (by decide)
    (by decide)
  have h2 := onRead_compacts_after_close closingHandler closingHandler_inputPassive
    (openChannel true) (frame helloMsg ++ [9, 8, 7]) (by decide) (by decide) (by decide)
    (by decide)
  exact ⟨by decide, by decide, by decide, h.2.1.trans (by decide), h.2.2.1,
    h.2.2.2.2.2.1, h2.2.2.1⟩

/-- C19 (counterexample to the claim as stated): a read event delivers one complete frame
and 3 bytes (9, 8, 7) of the next, and the handler closes the channel when it is invoked.
After `parseInput()` the channel is closed and the read cursor is at 17; `onRead` then
compacts the input buffer all the same, so that on return the read cursor is 0, the write
cursor is 3 and the 3 unread bytes have moved to the start of the array. -/
theorem onRead_handler_closes_counterexample :
    (openChannel true).socket_ = 3 ∧
    ((openChannel true).parsed closingHandler (frame helloMsg ++ [9, 8, 7])).socket_ = -1 ∧
    ((openChannel true).parsed closingHandler (frame helloMsg ++ [9, 8, 7])).handled
      = [helloMsg] ∧
    ((openChannel true).parsed closingHandler
        (frame helloMsg ++ [9, 8, 7])).inputBuffer_.readCursor = 17 ∧
    ((openChannel true).parsed closingHandler
        (frame helloMsg ++ [9, 8, 7])).inputBuffer_.writeCursor = 20 ∧
    ((openChannel true).parsed closingHandler
        (frame helloMsg ++ [9, 8, 7])).inputBuffer_.store.take 3 = [1, 0, 0] ∧
    (onRead closingHandler (openChannel true)
        (.data (frame helloMsg ++ [9, 8, 7]))).inputBuffer_.store.take 3 = [9, 8, 7] ∧
    (onRead closingHandler (openChannel true)
        (.data (frame helloMsg ++ [9, 8, 7]))).inputBuffer_.readCursor = 0 ∧
    (onRead closingHandler (openChannel true)
        (.data (frame helloMsg ++ [9, 8, 7]))).inputBuffer_.writeCursor = 3 ∧
    (onRead closingHandler (openChannel true)
        (.data (frame helloMsg ++ [9, 8, 7]))).inputBuffer_
      ≠ ((openChannel true).parsed closingHandler (frame helloMsg ++ [9, 8, 7])).inputBuffer_ := by
  refine ⟨by decide, by decide, by decide, by decide, by decide, by decide, by decide,
    by decide, by decide, by decide⟩

/-! ## close and the buffers (C15) -/

/-- On a closed channel no sequence of `write`, `sendMessageAsync` and `onWrite` calls sends
a byte, invokes the handler, touches the input buffer or reopens the channel. -/
theorem runCalls_closed : ∀ (calls : List Call) (ch c : RemoteChannel), ch.socket_ = -1 →
    runCalls ch calls = .ok c →
    c.socket_ = -1 ∧ c.sent = ch.sent ∧ c.handled = ch.handled ∧
    c.inputBuffer_ = ch.inputBuffer_ ∧ c.osCloses = ch.osCloses := by
  intro calls
  induction calls with
  | nil =>
    intro ch c hcl h
    simp only [runCalls] at h
    cases h
    exact ⟨hcl, rfl, rfl, rfl, rfl⟩
  | cons call calls ih =>
    intro ch c hcl h
    cases call with
    | write data size =>
      simp only [runCalls] at h
      split at h
      · cases h
      · rename_i c1 h1
        have f1 := write_frame _ _ _ _ h1
        obtain ⟨a1, a2, a3, a4, a5⟩ := ih c1 c (by rw [f1]; exact hcl) h
        exact ⟨a1, by rw [a2, f1], by rw [a3, f1], by rw [a4, f1], by rw [a5, f1]⟩
    | sendMessageAsync msg outs =>
      simp only [runCalls] at h
      split at h
      · cases h
      · rename_i r hsend
        obtain ⟨c1, c2, c3, c4, h1, h2, h3, h4, h5⟩ := sendMessageAsync_ok ch msg outs r hsend
        have f1 := write_frame _ _ _ _ h1
        have f2 := write_frame _ _ _ _ h2
        have f3 := write_frame _ _ _ _ h3
        have f4 := write_frame _ _ _ _ h4
        have hc4 : c4.socket_ = -1 := by rw [f4, f3, f2, f1]; exact hcl
        have f5 := onWriteLoop_closed _ c4 outs r.2 hc4 h5
        obtain ⟨a1, a2, a3, a4, a5⟩ := ih r.2 c (by rw [f5]; exact hc4) h
        exact ⟨a1, by rw [a2, f5, f4, f3, f2, f1], by rw [a3, f5, f4, f3, f2, f1],
          by rw [a4, f5, f4, f3, f2, f1], by rw [a5, f5, f4, f3, f2, f1]⟩
    | onWrite outs =>
      simp only [runCalls] at h
      split at h
      · cases h
      · rename_i c1 h1
        have f1 := onWriteLoop_closed _ ch outs c1 hcl h1
        obtain ⟨a1, a2, a3, a4, a5⟩ := ih c1 c (by rw [f1]; exact hcl) h
        exact ⟨a1, by rw [a2, f1], by rw [a3, f1], by rw [a4, f1], by rw [a5, f1]⟩

/-- C15 (as amended): `close` performs no socket write and touches neither buffer: after
`close()` the output queue and the input buffer hold exactly what they held before. No
sequence of `write`, `sendMessageAsync` and `onWrite` calls made after `close()` sends a
byte, invokes the handler or touches the input buffer, and every `onRead` call made after
`close()`, also after such calls, is a no-op. -/
theorem close_keeps_buffers (ch : RemoteChannel) :
    ch.close.sent = ch.sent ∧
    ch.close.outputBuffers_ = ch.outputBuffers_ ∧
    ch.close.inputBuffer_ = ch.inputBuffer_ ∧
    ch.close.handled = ch.handled ∧
    (∀ outs c, ch.close.onWrite outs = .ok c →
      c.sent = ch.sent ∧ c.handled = ch.handled) ∧
    (∀ handler o, onRead handler ch.close o = ch.close) ∧
    (∀ calls c, runCalls ch.close calls = .ok c →
      c.socket_ = -1 ∧ c.sent = ch.sent ∧ c.handled = ch.handled ∧
      c.inputBuffer_ = ch.inputBuffer_ ∧ ∀ handler o, onRead handler c o = c) := by
  have hs : ch.close.sent = ch.sent ∧ ch.close.outputBuffers_ = ch.outputBuffers_ ∧
      ch.close.inputBuffer_ = ch.inputBuffer_ ∧ ch.close.handled = ch.handled := by
    by_cases h : ch.socket_ = -1 <;> simp [close, h]
  refine ⟨hs.1, hs.2.1, hs.2.2.1, hs.2.2.2, ?_, ?_, ?_⟩
  · intro outs c h
    have hc := onWriteLoop_closed _ ch.close outs c (close_socket ch) h
    constructor
    · rw [hc]; exact hs.1
    · rw [hc]; exact hs.2.2.2
  · intro handler o
    exact onRead_closed handler ch.close o (close_socket ch)
  · intro calls c h
    obtain ⟨a1, a2, a3, a4, _⟩ := runCalls_closed calls ch.close c (close_socket ch) h
    exact ⟨a1, by rw [a2, hs.1], by rw [a3, hs.2.2.2], by rw [a4, hs.2.2.1],
      fun handler o => onRead_closed handler c o a1⟩

theorem close_keeps_buffers_witness :
    (queued17 true).close.queued = bytes17 ∧
    (queued17 true).close.onWrite [.accept 17] = .ok (queued17 true).close ∧
    (queued17 true).close.sent = [] ∧
    (runCalls (queued17 true).close
        [.onWrite [.accept 17], .sendMessageAsync helloMsg [.accept 17], .write bytes17 17,
         .onWrite [.accept 17]]).map (fun c => (c.sent, c.handled, c.socket_))
      = .ok ([], [], -1) :=
  ⟨by decide, by decide, (close_keeps_buffers (queued17 true)).1.trans (by decide),
   by decide⟩

end clap
